import Mathlib

/-!
# zeebe_nomad_trigger: the dispatch handler

A shallow embedding of `src/zeebe_nomad_trigger/main.go`.

* Go values that are copied by assignment (strings, integers, structs) are Lean values.
* Go maps are reference objects.  The only map the handler writes through a shared
  reference is a task's `Env`; those maps live in a `Heap` (address to map object) and a
  `Task` stores the address.  `TaskGroups []*TaskGroup` and `Tasks []*Task` are reached
  through pointers as well, but no `TaskGroup` or `Task` struct is ever written, so they
  are embedded by value.
* Calls that leave the process (nomad `Info` and `Register`, zeebe `CompleteJob`) are
  recorded in a trace; what the remote side answers is supplied by the caller.
* `log.Fatalf` (which ends the process with `os.Exit(1)`) and run-time panics are
  outcomes of the handler.  Plain `log.Print*` lines are not recorded.
* The decoding and encoding of the payload are library code (`encoding/json`).  The
  handler takes them as a `Runtime`; `encodingJSON` is that library on a fragment of
  JSON, with numbers decoded to float64 as Go does.
-/

namespace ZeebeNomad

/-! ## Go library functions used by the handler -/

/-- Go `strings.Contains(s, substr)`: `substr` occurs as a contiguous block of `s`. -/
def strings.Contains (s substr : String) : Bool :=
  decide (substr.toList <:+: s.toList)

/-- Go `int(x)` for `x : int64` on a target whose `int` has 64 bits: two's complement
wrap-around into `[-2^63, 2^63)`. -/
def int (x : Int) : Int :=
  (x + 2 ^ 63) % 2 ^ 64 - 2 ^ 63

/-- Go `strconv.Itoa`: the decimal rendering of an integer. -/
def strconv.Itoa (n : Int) : String :=
  Int.repr n

/-- Operands of `fmt.Sprintf` that occur at the call site in the handler. -/
inductive fmt.Arg where
  | str (s : String)
  | int (n : Int)

/-- Go `fmt.Sprintf` on the characters of the format; the flag says that the character
before was a `%`.  The verbs `%s` with a string operand and `%d` with an integer operand
(base 10) are rendered, which is all the format of the handler uses; a verb without its
operand is copied as it stands, where Go would print a diagnostic. -/
def fmt.sprintf : Bool → List Char → List fmt.Arg → List Char
  | false, [], _ => []
  | true, [], _ => ['%']
  | false, c :: rest, args =>
    if c = '%' then fmt.sprintf true rest args else c :: fmt.sprintf false rest args
  | true, v :: rest, [] => '%' :: v :: fmt.sprintf false rest []
  | true, v :: rest, fmt.Arg.str s :: args =>
    if v = 's' then s.toList ++ fmt.sprintf false rest args
    else '%' :: v :: fmt.sprintf false rest (fmt.Arg.str s :: args)
  | true, v :: rest, fmt.Arg.int n :: args =>
    if v = 'd' then (Int.repr n).toList ++ fmt.sprintf false rest args
    else '%' :: v :: fmt.sprintf false rest (fmt.Arg.int n :: args)

/-- Go `fmt.Sprintf(format, args...)`. -/
def fmt.Sprintf (format : String) (args : List fmt.Arg) : String :=
  String.mk (fmt.sprintf false format.toList args)

/-- Go values that `encoding/json` produces when decoding into `interface{}`:
`nil`, `bool`, `float64` (kept as its 64-bit pattern; the handler does no arithmetic on
it), `string`, `[]interface{}` and `map[string]interface{}`. -/
inductive json.Value where
  | null
  | bool (b : Bool)
  | number (bits : Nat)
  | string (s : String)
  | array (xs : List json.Value)
  | object (kvs : List (String × json.Value))

/-- A non-nil Go `map[string]V`: at most one entry per key. -/
abbrev GoMap (V : Type) := List (String × V)

/-- Go `m[k]` as a lookup (`v, ok := m[k]`). -/
def GoMap.get {V : Type} : GoMap V → String → Option V
  | [], _ => none
  | (k', v) :: m, k => if k' = k then some v else GoMap.get m k

/-- Go `m[k] = v`: replaces the entry for `k` or adds one. -/
def GoMap.set {V : Type} : GoMap V → String → V → GoMap V
  | [], k, v => [(k, v)]
  | (k', v') :: m, k, v => if k' = k then (k, v) :: m else (k', v') :: GoMap.set m k v

/-- The `map[string]string` objects of the process, by address. -/
abbrev Heap := Nat → GoMap String

/-- Go `m[k] = v` on the map object at address `a`. -/
def Heap.write (heap : Heap) (a : Nat) (k v : String) : Heap :=
  Function.update heap a (GoMap.set (heap a) k v)

/-! ## Data model -/

/-- Go `nomadAPI.Task`: `Env map[string]string` is `nil` or the address of a map. -/
structure nomadAPI.Task where
  Env : Option Nat

/-- Go `nomadAPI.TaskGroup`. -/
structure nomadAPI.TaskGroup where
  Tasks : List nomadAPI.Task

/-- Go `nomadAPI.Job`, the fields the program reads or writes.  `ID`, `Name` and `Status`
are `*string`: `none` is the nil pointer. -/
structure nomadAPI.Job where
  ID : Option String
  Name : Option String
  Status : Option String
  TaskGroups : List nomadAPI.TaskGroup

/-- Go `entities.Job.JobHeaders`. -/
structure entities.JobHeaders where
  BpmnProcessId : String
  WorkflowInstanceKey : Int
  ElementId : String

/-- Go `entities.Job` (a zeebe workflow job); `Key` and `WorkflowInstanceKey` are `int64`. -/
structure entities.Job where
  Key : Int
  JobType : String
  JobHeaders : entities.JobHeaders
  Payload : String

/-- The library functions whose code is outside the repository: the job method
`GetPayloadAsMap` (a `nil` map with no error is `ok none`) and `json.Marshal`.  Both are
functions of their argument: decoding the same job again gives the same answer. -/
structure Runtime where
  GetPayloadAsMap : entities.Job → Except String (Option (GoMap json.Value))
  Marshal : GoMap json.Value → Except String String

/-- Go `*nomadAPI.Client`, as the answers of the scheduler: `Jobs().Info(id, nil)` gives
`(job, err)` with `err` the text of `err.Error()`, and `Jobs().Register(job, nil)` gives
`err`; `none` is `nil`.  `Register` sees the job together with the maps it points to. -/
structure nomadAPI.Client where
  Info : String → Option nomadAPI.Job × Option String
  Register : nomadAPI.Job → Heap → Option String

/-- Go `worker.JobClient`, as the answers of the workflow engine to
`NewCompleteJobCommand().JobKey(key).PayloadFromMap(payload)` and to `Send()`. -/
structure worker.JobClient where
  PayloadFromMap : GoMap json.Value → Option String
  Send : Int → GoMap json.Value → Option String

/-- A request that left the process. -/
inductive Call where
  | Info (id : String)
  | Register (job : nomadAPI.Job) (heap : Heap)
  | CompleteJob (key : Int) (payload : GoMap json.Value)

/-- How one run of a function ended. -/
inductive Outcome where
  | returned
  | fatal (msg : String)
  | panic (msg : String)
  deriving DecidableEq

/-- What one invocation of the handler did. -/
structure Result where
  calls : List Call
  outcome : Outcome
  heap : Heap

/-! ## The program -/

/-- Go `type NomadJobFactory func() nomadAPI.Job`. -/
abbrev NomadJobFactory := Unit → nomadAPI.Job

/-- Go `newNomadJobFactory`: the closure returns the captured struct by value. -/
def newNomadJobFactory (nomadJob : nomadAPI.Job) : NomadJobFactory :=
  fun _ => nomadJob

/-- Go `failZeebeJob` (main.go 185-209). -/
def failZeebeJob (rt : Runtime) (client : worker.JobClient) (job : entities.Job)
    (_err : Option String) : List Call × Outcome :=
  match rt.GetPayloadAsMap job with
  | .error err => ([], .fatal ("error getting payload: " ++ err))
  | .ok none => ([], .panic "assignment to entry in nil map")
  | .ok (some payload) =>
    let payload := GoMap.set payload "error" (json.Value.bool true)
    match client.PayloadFromMap payload with
    | some err => ([], .fatal ("error completing job: " ++ err))
    | none =>
      match client.Send job.Key payload with
      | some err => ([Call.CompleteJob job.Key payload], .fatal ("error sending request: " ++ err))
      | none => ([Call.CompleteJob job.Key payload], .returned)

/-- The statement `nomadJob.TaskGroups[0].Tasks[0].Env[k] = v`; the error is the panic of
an index out of range or of a write to a nil map. -/
def setEnv (nomadJob : nomadAPI.Job) (heap : Heap) (k v : String) : Except String Heap :=
  match nomadJob.TaskGroups with
  | [] => .error "index out of range [0] with length 0"
  | tg :: _ =>
    match tg.Tasks with
    | [] => .error "index out of range [0] with length 0"
    | t :: _ =>
      match t.Env with
      | none => .error "assignment to entry in nil map"
      | some a => .ok (Heap.write heap a k v)

/-- The `transactionID` of the handler (main.go 115-121). -/
def transactionID (zeebeJob : entities.Job) : String :=
  fmt.Sprintf "%s_%d_%s_%d"
    [ fmt.Arg.str zeebeJob.JobHeaders.BpmnProcessId,
      fmt.Arg.int zeebeJob.JobHeaders.WorkflowInstanceKey,
      fmt.Arg.str zeebeJob.JobHeaders.ElementId,
      fmt.Arg.int zeebeJob.Key ]

/-- The environment writes of the handler (main.go 142-150). -/
def writeEnv (zeebeBrokerURL : String) (zeebeTasksToFail : List String)
    (zeebeJob : entities.Job) (zeebePayloadJSON : String) (nomadJob : nomadAPI.Job)
    (heap : Heap) : Except String Heap := do
  let heap ← setEnv nomadJob heap "ZEEBE_JOB_KEY" (strconv.Itoa (int zeebeJob.Key))
  let heap ← setEnv nomadJob heap "ZEEBE_PAYLOAD" zeebePayloadJSON
  let heap ← setEnv nomadJob heap "ZEEBE_BROKER_URL" zeebeBrokerURL
  let heap ← setEnv nomadJob heap "ZEEBE_FAIL_JOB_FLAG" "false"
  let heap ← setEnv nomadJob heap "DURATION" "2m"
  if zeebeJob.JobHeaders.ElementId ∈ zeebeTasksToFail then
    setEnv nomadJob heap "ZEEBE_FAIL_JOB_FLAG" "true"
  else
    pure heap

/-- The existence check and the creation of the nomad job (main.go 152-173). -/
def dispatch (nomadClient : nomadAPI.Client) (transactionID : String)
    (nomadJob : nomadAPI.Job) (heap : Heap) : Result :=
  let (nomadJobResult, err) := nomadClient.Info transactionID
  let nomadJobExists : Except String Bool :=
    match err with
    | some e =>
      if strings.Contains e "404" then .ok false
      else .error ("error querying nomad job: " ++ e)
    | none => .ok true
  match nomadJobExists with
  | .error msg => ⟨[Call.Info transactionID], .fatal msg, heap⟩
  | .ok true =>
    match nomadJobResult with
    | none => ⟨[Call.Info transactionID], .panic "nil pointer dereference", heap⟩
    | some j =>
      match j.Status with
      | none => ⟨[Call.Info transactionID], .panic "nil pointer dereference", heap⟩
      | some _ => ⟨[Call.Info transactionID], .returned, heap⟩
  | .ok false =>
    match nomadClient.Register nomadJob heap with
    | some e =>
      ⟨[Call.Info transactionID, Call.Register nomadJob heap],
        .fatal ("error creating nomad job: " ++ e), heap⟩
    | none => ⟨[Call.Info transactionID, Call.Register nomadJob heap], .returned, heap⟩

/-- Go `nomadTriggerHandler` (main.go 113-175): the handler it returns, applied to the
zeebe client, the job and the heap of the moment. -/
def nomadTriggerHandler (rt : Runtime) (_zeebeJobType zeebeBrokerURL : String)
    (zeebeTasksToFail : List String) (nomadClient : nomadAPI.Client)
    (nomadJobFactory : NomadJobFactory) (zeebeClient : worker.JobClient)
    (zeebeJob : entities.Job) (heap : Heap) : Result :=
  let transactionID := transactionID zeebeJob
  match rt.GetPayloadAsMap zeebeJob with
  | .error err =>
    let r := failZeebeJob rt zeebeClient zeebeJob (some err)
    ⟨r.1, r.2, heap⟩
  | .ok none => ⟨[], .panic "assignment to entry in nil map", heap⟩
  | .ok (some zeebePayload) =>
    let zeebePayload := GoMap.set zeebePayload "error" (json.Value.bool false)
    match rt.Marshal zeebePayload with
    | .error err =>
      let r := failZeebeJob rt zeebeClient zeebeJob (some err)
      ⟨r.1, r.2, heap⟩
    | .ok zeebePayloadJSON =>
      let nomadJob := nomadJobFactory ()
      let nomadJob := { nomadJob with ID := some transactionID, Name := some transactionID }
      match writeEnv zeebeBrokerURL zeebeTasksToFail zeebeJob zeebePayloadJSON nomadJob heap with
      | .error msg => ⟨[], .panic msg, heap⟩
      | .ok heap => dispatch nomadClient transactionID nomadJob heap

/-! ## encoding/json on a fragment of JSON

`GetPayloadAsMap` is `json.Unmarshal` of the payload text into a nil
`map[string]interface{}`, and the handler re-encodes with `json.Marshal`.  Both are
modelled on a fragment: objects whose values are strings without escapes, integers,
`true`, `false` and `null`.  Inside the fragment the functions give the answer of Go;
outside they say so (`none`) and nothing is claimed. -/

/-- The number of binary digits of `n`, counted with `fuel` steps. -/
def float64.bitLength : Nat → Nat → Nat
  | 0, _ => 0
  | fuel + 1, n => if n = 0 then 0 else float64.bitLength fuel (n / 2) + 1

/-- The float64 (as its IEEE-754 bit pattern) nearest to the integer of sign `neg` and
magnitude `n`, ties to the even mantissa, as `strconv.ParseFloat` gives it; `none` when
the magnitude is beyond the largest float64 (a range error in Go). -/
def float64.ofInteger (neg : Bool) (n : Nat) : Option Nat :=
  let sign := if neg then 2 ^ 63 else 0
  if n = 0 then some sign
  else
    let len := float64.bitLength n n
    if len ≤ 53 then
      some (sign + (1022 + len) * 2 ^ 52 + (n * 2 ^ (53 - len) - 2 ^ 52))
    else
      let shift := len - 53
      let q := n / 2 ^ shift
      let r := n % 2 ^ shift
      let half := 2 ^ (shift - 1)
      let q := if half < r ∨ (r = half ∧ q % 2 = 1) then q + 1 else q
      let bits := (1022 + len) * 2 ^ 52 + (q - 2 ^ 52)
      if 2047 * 2 ^ 52 ≤ bits then none else some (sign + bits)

/-- The shortest decimal that reads back as the float64 of integer value `v`, binary
exponent `e ≥ 1` and fraction field `frac`: the multiple of the largest power of ten with
a multiple inside the rounding interval of the float, the nearer one when two are
inside.  All quantities are scaled by 4 to stay integral; `k` counts down from the
largest power tried. -/
def float64.shortest (v e frac : Nat) : Nat → Nat
  | 0 => v
  | k + 1 =>
    let p := 10 ^ (k + 1)
    let lo := 4 * v - (if frac = 0 then 2 ^ e else 2 ^ (e + 1))
    let hi := 4 * v + 2 ^ (e + 1)
    let inside := fun c : Nat =>
      if frac % 2 = 0 then decide (lo ≤ 4 * c ∧ 4 * c ≤ hi)
      else decide (lo < 4 * c ∧ 4 * c < hi)
    let down := v / p * p
    let up := down + p
    if inside down && inside up then
      if v - down < up - v then down
      else if up - v < v - down then up
      else if (down / p) % 2 = 0 then down else up
    else if inside down then down
    else if inside up then up
    else float64.shortest v e frac k

/-- The text `json.Marshal` writes for the float64 with bit pattern `bits`, for the
floats that are integers of magnitude below `10^21` (written without exponent); `none`
for every other float. -/
def float64.text (bits : Nat) : Option String :=
  let sign := if bits / 2 ^ 63 = 1 then "-" else ""
  let expo := bits / 2 ^ 52 % 2048
  let frac := bits % 2 ^ 52
  if 2 ^ 64 ≤ bits ∨ expo = 2047 then none
  else if expo = 0 then (if frac = 0 then some (sign ++ "0") else none)
  else
    let mant := 2 ^ 52 + frac
    if 1075 < expo then
      let v := mant * 2 ^ (expo - 1075)
      if 10 ^ 21 ≤ v then none
      else some (sign ++ Nat.repr (float64.shortest v (expo - 1075) frac 21))
    else if mant % 2 ^ (1075 - expo) = 0 then
      some (sign ++ Nat.repr (mant / 2 ^ (1075 - expo)))
    else none

/-- The outcome of reading a piece of JSON text: a value and the text after it, an error
of encoding/json (its message is not modelled), or text outside the fragment. -/
inductive json.Read (α : Type) where
  | ok (a : α) (rest : List Char)
  | invalid
  | unmodelled

/-- Skips JSON white space. -/
def json.skipSpace : List Char → List Char
  | [] => []
  | c :: cs =>
    if c = ' ' ∨ c = '\t' ∨ c = '\n' ∨ c = '\r' then json.skipSpace cs else c :: cs

/-- Reads a string after its opening quote; `acc` holds the characters read, last
first.  A backslash (an escape) is outside the fragment. -/
def json.readString : List Char → List Char → json.Read String
  | [], _ => .invalid
  | c :: cs, acc =>
    if c = '"' then .ok (String.mk acc.reverse) cs
    else if c = '\\' then .unmodelled
    else if c.toNat < 32 then .invalid
    else json.readString cs (c :: acc)

/-- Reads the word `w`. -/
def json.readWord : List Char → List Char → Option (List Char)
  | [], cs => some cs
  | _ :: _, [] => none
  | w :: ws, c :: cs => if w = c then json.readWord ws cs else none

/-- Reads a run of decimal digits onto the value `acc`. -/
def json.readDigits : List Char → Nat → Nat × List Char
  | [], acc => (acc, [])
  | c :: cs, acc =>
    if c.isDigit then json.readDigits cs ((c.toNat - 48) + 10 * acc) else (acc, c :: cs)

/-- Reads the digits of a number of sign `neg`: an integer without leading zero; a
fraction or an exponent is outside the fragment. -/
def json.readNumber (neg : Bool) : List Char → json.Read json.Value
  | [] => .invalid
  | c :: cs =>
    if c.isDigit then
      let r := if c = '0' then (0, cs) else json.readDigits (c :: cs) 0
      match r.2 with
      | d :: _ =>
        if d.isDigit then .invalid
        else if d = '.' ∨ d = 'e' ∨ d = 'E' then .unmodelled
        else
          match float64.ofInteger neg r.1 with
          | some bits => .ok (json.Value.number bits) r.2
          | none => .invalid
      | [] =>
        match float64.ofInteger neg r.1 with
        | some bits => .ok (json.Value.number bits) r.2
        | none => .invalid
    else .invalid

/-- Reads a value that is a string, an integer, `true`, `false` or `null`; arrays and
nested objects are outside the fragment. -/
def json.readValue : List Char → json.Read json.Value
  | [] => .invalid
  | c :: cs =>
    if c = '"' then
      match json.readString cs [] with
      | .ok s rest => .ok (json.Value.string s) rest
      | .invalid => .invalid
      | .unmodelled => .unmodelled
    else if c = '-' then json.readNumber true cs
    else if c.isDigit then json.readNumber false (c :: cs)
    else if c = '[' ∨ c = '{' then .unmodelled
    else
      match json.readWord "true".toList (c :: cs) with
      | some rest => .ok (json.Value.bool true) rest
      | none =>
        match json.readWord "false".toList (c :: cs) with
        | some rest => .ok (json.Value.bool false) rest
        | none =>
          match json.readWord "null".toList (c :: cs) with
          | some rest => .ok json.Value.null rest
          | none => .invalid

/-- Reads the members of an object after `{` or `,` into the map `m`, up to and with the
closing `}`; a repeated key overwrites.  `fuel` bounds the number of members. -/
def json.readMembers : Nat → List Char → GoMap json.Value → json.Read (GoMap json.Value)
  | 0, _, _ => .unmodelled
  | fuel + 1, cs, m =>
    match json.skipSpace cs with
    | [] => .invalid
    | c :: cs =>
      if c = '"' then
        match json.readString cs [] with
        | .invalid => .invalid
        | .unmodelled => .unmodelled
        | .ok key cs =>
          match json.skipSpace cs with
          | [] => .invalid
          | c :: cs =>
            if c = ':' then
              match json.readValue (json.skipSpace cs) with
              | .invalid => .invalid
              | .unmodelled => .unmodelled
              | .ok v cs =>
                match json.skipSpace cs with
                | [] => .invalid
                | c :: cs =>
                  if c = ',' then json.readMembers fuel cs (GoMap.set m key v)
                  else if c = '}' then .ok (GoMap.set m key v) cs
                  else .invalid
            else .invalid
      else .invalid

/-- The one text that stands for every error message of the decoder. -/
def json.rejected : String :=
  "json: payload rejected"

/-- Go `json.Unmarshal` of the payload text into a `map[string]interface{}` that starts
out nil, on the fragment: `some` is the answer of Go (an error, the nil map for `null`,
or the decoded map), `none` means the text is outside the fragment. -/
def json.Unmarshal (payload : String) : Option (Except String (Option (GoMap json.Value))) :=
  match json.skipSpace payload.toList with
  | [] => some (.error json.rejected)
  | c :: cs =>
    if c = '{' then
      let r :=
        match json.skipSpace cs with
        | d :: ds => if d = '}' then json.Read.ok [] ds else json.readMembers cs.length cs []
        | [] => json.Read.invalid
      match r with
      | .invalid => some (.error json.rejected)
      | .unmodelled => none
      | .ok m rest =>
        if json.skipSpace rest = [] then some (.ok (some m))
        else some (.error json.rejected)
    else
      match json.readWord "null".toList (c :: cs) with
      | some rest =>
        if json.skipSpace rest = [] then some (.ok none)
        else some (.error json.rejected)
      | none => some (.error json.rejected)

/-- The characters `json.Marshal` copies into a string as they are. -/
def json.plain (c : Char) : Bool :=
  decide (32 ≤ c.toNat) && c != '"' && c != '\\' && c != '<' && c != '>' && c != '&'
    && c.toNat != 8232 && c.toNat != 8233

/-- The quoted text of a string without characters to escape. -/
def json.quote (s : String) : Option String :=
  if s.toList.all json.plain then some ("\"" ++ s ++ "\"") else none

/-- The text of a value that is `nil`, a bool, a float64 covered by `float64.text` or a
string without characters to escape. -/
def json.valueText : json.Value → Option String
  | .null => some "null"
  | .bool b => some (if b then "true" else "false")
  | .number bits => float64.text bits
  | .string s => json.quote s
  | .array _ => none
  | .object _ => none

/-- The order of map keys in the output: by code point, the first difference decides. -/
def json.keyBefore : List Char → List Char → Bool
  | [], _ => true
  | _ :: _, [] => false
  | a :: as, b :: bs => if a.toNat < b.toNat then true else if b.toNat < a.toNat then false else json.keyBefore as bs

/-- Inserts an entry into entries sorted by key. -/
def json.insertEntry {V : Type} (k : String) (v : V) : List (String × V) → List (String × V)
  | [] => [(k, v)]
  | (k', v') :: es =>
    if json.keyBefore k.toList k'.toList then (k, v) :: (k', v') :: es
    else (k', v') :: json.insertEntry k v es

/-- The entries sorted by key. -/
def json.sortEntries {V : Type} : List (String × V) → List (String × V)
  | [] => []
  | (k, v) :: es => json.insertEntry k v (json.sortEntries es)

/-- The members `"k":v` of the entries, separated by commas. -/
def json.membersText : List (String × String) → String
  | [] => ""
  | [(k, v)] => k ++ ":" ++ v
  | (k, v) :: e :: es => k ++ ":" ++ v ++ "," ++ json.membersText (e :: es)

/-- The quoted key and the text of the value of each entry; `none` when one is not covered. -/
def json.entryTexts : List (String × json.Value) → Option (List (String × String))
  | [] => some []
  | (k, v) :: es =>
    match json.quote k, json.valueText v, json.entryTexts es with
    | some k', some v', some rest => some ((k', v') :: rest)
    | _, _, _ => none

/-- Go `json.Marshal` of a `map[string]interface{}`, keys sorted, on the fragment. -/
def json.Marshal (m : GoMap json.Value) : Option String :=
  match json.entryTexts (json.sortEntries m) with
  | some es => some ("\x7b" ++ json.membersText es ++ "\x7d")
  | none => none

/-- A value of a flat JSON object as the payload text writes it. -/
inductive json.Literal where
  | null
  | bool (b : Bool)
  | integer (n : Int)
  | string (s : String)

/-- The JSON text of a literal; a string is written without escapes. -/
def json.Literal.text : json.Literal → String
  | .null => "null"
  | .bool b => if b then "true" else "false"
  | .integer n => Int.repr n
  | .string s => "\"" ++ s ++ "\""

/-- The compact JSON text of the object with the entries `o`, in their order. -/
def json.objectText (o : List (String × json.Literal)) : String :=
  "\x7b" ++ json.membersText (o.map fun e => ("\"" ++ e.1 ++ "\"", e.2.text)) ++ "\x7d"

/-- The literals whose text the fragment reads and writes back unchanged: integers of
magnitude below `2^53` and strings without characters to escape. -/
def json.Literal.covered : json.Literal → Prop
  | .null => True
  | .bool _ => True
  | .integer n => n.natAbs < 2 ^ 53
  | .string s => s.toList.all json.plain = true

/-- The objects of covered literals under distinct keys without characters to escape. -/
def json.covered (o : List (String × json.Literal)) : Prop :=
  (∀ e ∈ o, e.1.toList.all json.plain = true ∧ e.2.covered) ∧ (o.map fun e => e.1).Nodup

/-- The Go value that decoding gives for a literal: an integer becomes the nearest
float64. -/
def json.Literal.value : json.Literal → json.Value
  | .null => json.Value.null
  | .bool b => json.Value.bool b
  | .integer n =>
    match float64.ofInteger (decide (n < 0)) n.natAbs with
    | some bits => json.Value.number bits
    | none => json.Value.null
  | .string s => json.Value.string s

/-- The character after a value inside an object: a comma or the closing brace. -/
def json.afterValue (d : Char) : Prop :=
  d = ',' ∨ d = '\x7d'

/-- Whether a literal is covered can be computed. -/
instance json.Literal.decidableCovered (v : json.Literal) : Decidable v.covered :=
  match v with
  | .null => isTrue trivial
  | .bool _ => isTrue trivial
  | .integer n => inferInstanceAs (Decidable (n.natAbs < 2 ^ 53))
  | .string s => inferInstanceAs (Decidable (s.toList.all json.plain = true))

/-- Whether an object is covered can be computed. -/
instance json.decidableCovered (o : List (String × json.Literal)) :
    Decidable (json.covered o) :=
  inferInstanceAs (Decidable (_ ∧ _))

/-- The library functions as modelled on the fragment.  A payload or a map outside the
fragment is answered with an error, which is not what Go does there; the theorems
evaluate this runtime inside the fragment only. -/
def encodingJSON : Runtime where
  GetPayloadAsMap job :=
    match json.Unmarshal job.Payload with
    | some r => r
    | none => .error "outside the modelled fragment"
  Marshal m :=
    match json.Marshal m with
    | some text => .ok text
    | none => .error "outside the modelled fragment"

/-! ## Observations on traces and specs -/

/-- The jobs handed to `Register`, in order. -/
def submits : List Call → List nomadAPI.Job
  | [] => []
  | Call.Register job _ :: cs => job :: submits cs
  | Call.Info _ :: cs => submits cs
  | Call.CompleteJob _ _ :: cs => submits cs

/-- The IDs looked up with `Info`, in order. -/
def lookups : List Call → List String
  | [] => []
  | Call.Info id :: cs => id :: lookups cs
  | Call.Register _ _ :: cs => lookups cs
  | Call.CompleteJob _ _ :: cs => lookups cs

/-- The complete-job requests sent, in order. -/
def completes : List Call → List (Int × GoMap json.Value)
  | [] => []
  | Call.CompleteJob key payload :: cs => (key, payload) :: completes cs
  | Call.Info _ :: cs => completes cs
  | Call.Register _ _ :: cs => completes cs

/-- The address of `job.TaskGroups[0].Tasks[0].Env`, when the job has a first task group
with a first task whose `Env` is a non-nil map. -/
def firstEnv (job : nomadAPI.Job) : Option Nat :=
  match job.TaskGroups with
  | [] => none
  | tg :: _ =>
    match tg.Tasks with
    | [] => none
    | t :: _ => t.Env

/-- The heap after the environment writes of the handler on the map at address `a`. -/
def envWritten (zeebeBrokerURL : String) (zeebeTasksToFail : List String)
    (zeebeJob : entities.Job) (zeebePayloadJSON : String) (a : Nat) (heap : Heap) : Heap :=
  let heap := Heap.write heap a "ZEEBE_JOB_KEY" (strconv.Itoa (int zeebeJob.Key))
  let heap := Heap.write heap a "ZEEBE_PAYLOAD" zeebePayloadJSON
  let heap := Heap.write heap a "ZEEBE_BROKER_URL" zeebeBrokerURL
  let heap := Heap.write heap a "ZEEBE_FAIL_JOB_FLAG" "false"
  let heap := Heap.write heap a "DURATION" "2m"
  if zeebeJob.JobHeaders.ElementId ∈ zeebeTasksToFail then
    Heap.write heap a "ZEEBE_FAIL_JOB_FLAG" "true"
  else heap

/-! ## The scenario of the spec (section 8) -/

/-- The workflow job of the scenario: type `action`, process `p1`, instance 7, step
`step1`, key 42, payload `{"x":1}`. -/
def scenarioJob : entities.Job :=
  ⟨42, "action", ⟨"p1", 7, "step1"⟩, "\x7b\"x\":1\x7d"⟩

/-- A job template with one task group holding one task whose `Env` is the map at
address 0. -/
def scenarioTemplate : nomadAPI.Job :=
  ⟨some "long-running-process", some "long-running-process", none, [⟨[⟨some 0⟩]⟩]⟩

/-- A heap in which every map is empty. -/
def scenarioHeap : Heap :=
  fun _ => []

/-- A scheduler that knows no job: `Info` answers with the 404 error of the nomad API
client and `Register` succeeds. -/
def notFoundClient : nomadAPI.Client :=
  ⟨fun _ => (none, some "Unexpected response code: 404 (job not found)"), fun _ _ => none⟩

/-- A scheduler that knows every job as running. -/
def foundClient : nomadAPI.Client :=
  ⟨fun id => (some ⟨some id, some id, some "running", []⟩, none), fun _ _ => none⟩

/-- A workflow engine that accepts every complete-job request. -/
def scenarioZeebeClient : worker.JobClient :=
  ⟨fun _ => none, fun _ _ => none⟩

/-- The value of a decimal digit character. -/
def digitVal (c : Char) : Nat :=
  c.toNat - 48

/-- Headers of process `order`, instance 1, step `2_ship`, under the key 3. -/
def collidingJobA : entities.Job :=
  ⟨3, "action", ⟨"order", 1, "2_ship"⟩, "\x7b\x7d"⟩

/-- Headers of process `order_1`, instance 2, step `ship`, under the same key 3. -/
def collidingJobB : entities.Job :=
  ⟨3, "action", ⟨"order_1", 2, "ship"⟩, "\x7b\x7d"⟩

/-! ## Sequential deliveries against a scheduler that remembers registered IDs -/

/-- The IDs of the specs handed to `Register`, in order. -/
def submittedIDs (calls : List Call) : List String :=
  (submits calls).filterMap (fun spec => spec.ID)

/-- The scheduler of the idempotency invariant (spec 4.4), whose state is the set
`registered` of job IDs: the lookup finds an ID of the set and answers any other ID
with the 404 error of the nomad API client. -/
def schedulerInfo (registered : List String) (id : String) :
    Option nomadAPI.Job × Option String :=
  if id ∈ registered then (some ⟨some id, some id, some "running", []⟩, none)
  else (none, some "Unexpected response code: 404 (job not found)")

/-- One delivery of a workflow job to the handler: the job, the answers of the workflow
engine, and the answer of the scheduler to a submit made during this delivery. -/
structure Delivery where
  zeebeJob : entities.Job
  zeebeClient : worker.JobClient
  Register : nomadAPI.Job → Heap → Option String

/-- The trace of a sequence of deliveries handled one after the other, starting from the
scheduler state `registered`.  A handler that returns has had its submit, if any,
accepted, and the submitted ID joins the set; `log.Fatalf` or a panic ends the process
and with it the sequence. -/
def deliver (rt : Runtime) (zeebeJobType zeebeBrokerURL : String)
    (zeebeTasksToFail : List String) (nomadJobFactory : NomadJobFactory) :
    List Delivery → List String → Heap → List Call
  | [], _, _ => []
  | d :: ds, registered, heap =>
    let r := nomadTriggerHandler rt zeebeJobType zeebeBrokerURL zeebeTasksToFail
      ⟨schedulerInfo registered, d.Register⟩ nomadJobFactory d.zeebeClient d.zeebeJob heap
    match r.outcome with
    | .returned =>
      r.calls ++ deliver rt zeebeJobType zeebeBrokerURL zeebeTasksToFail nomadJobFactory ds
        (submittedIDs r.calls ++ registered) r.heap
    | _ => r.calls

/-! ## Further concrete inputs -/

/-- The scenario job in workflow instance 404; its TransactionID is `p1_404_step1_42`. -/
def instance404Job : entities.Job :=
  ⟨42, "action", ⟨"p1", 404, "step1"⟩, "\x7b\"x\":1\x7d"⟩

/-- A scheduler whose lookup fails on the network (the connection is reset), with the
error text of the Go HTTP client, which quotes the request URL; a later submit gets
through. -/
def connectionResetClient : nomadAPI.Client :=
  ⟨fun id => (none, some ("Get http://10.0.2.2:4646/v1/job/" ++ id
      ++ ": read tcp 10.0.2.15:51234->10.0.2.2:4646: read: connection reset by peer")),
    fun _ _ => none⟩

/-- A workflow job whose payload is not JSON. -/
def undecodableJob : entities.Job :=
  ⟨42, "action", ⟨"p1", 7, "step1"⟩, "not json"⟩

/-- A workflow job whose payload is the JSON text `null`. -/
def nullPayloadJob : entities.Job :=
  ⟨42, "action", ⟨"p1", 7, "step1"⟩, "null"⟩

/-- The scenario job with the payload `{"x":9007199254740993}`, an integer one above
`2^53`. -/
def bigIntegerJob : entities.Job :=
  ⟨42, "action", ⟨"p1", 7, "step1"⟩, "\x7b\"x\":9007199254740993\x7d"⟩

/-! ## Lemmas: maps and heap -/

theorem GoMap.get_set_self {V : Type} (m : GoMap V) (k : String) (v : V) :
    GoMap.get (GoMap.set m k v) k = some v := by
  induction m with
  | nil => simp [GoMap.set, GoMap.get]
  | cons p m ih =>
    obtain ⟨k', v'⟩ := p
    by_cases h : k' = k
    · simp [GoMap.set, GoMap.get, h]
    · simp [GoMap.set, GoMap.get, h, ih]

theorem GoMap.get_set_other {V : Type} (m : GoMap V) (k k' : String) (v : V) (h : k' ≠ k) :
    GoMap.get (GoMap.set m k v) k' = GoMap.get m k' := by
  induction m with
  | nil => simp [GoMap.set, GoMap.get, h.symm]
  | cons p m ih =>
    obtain ⟨k₀, v₀⟩ := p
    by_cases h₀ : k₀ = k
    · subst h₀
      simp [GoMap.set, GoMap.get, h.symm]
    · by_cases h₁ : k₀ = k'
      · subst h₁
        simp [GoMap.set, GoMap.get, h₀]
      · simp [GoMap.set, GoMap.get, h₀, h₁, ih]

theorem Heap.write_same (heap : Heap) (a : Nat) (k v : String) :
    GoMap.get (Heap.write heap a k v a) k = some v := by
  simp [Heap.write, GoMap.get_set_self]

theorem Heap.write_other_key (heap : Heap) (a : Nat) (k k' v : String) (h : k' ≠ k) :
    GoMap.get (Heap.write heap a k v a) k' = GoMap.get (heap a) k' := by
  simp [Heap.write, GoMap.get_set_other _ _ _ _ h]

theorem Heap.write_other_addr (heap : Heap) (a b : Nat) (k v : String) (h : b ≠ a) :
    Heap.write heap a k v b = heap b := by
  simp [Heap.write, Function.update_noteq h]

/-! ## Lemmas: the handler, phase by phase -/

theorem setEnv_ok (nomadJob : nomadAPI.Job) (heap : Heap) (k v : String) (a : Nat)
    (h : firstEnv nomadJob = some a) :
    setEnv nomadJob heap k v = .ok (Heap.write heap a k v) := by
  unfold firstEnv at h
  unfold setEnv
  cases hg : nomadJob.TaskGroups with
  | nil => simp [hg] at h
  | cons tg tgs =>
    cases ht : tg.Tasks with
    | nil => simp [hg, ht] at h
    | cons t ts =>
      simp only [hg, ht] at h
      simp [ht, h]

theorem writeEnv_ok (zeebeBrokerURL : String) (zeebeTasksToFail : List String)
    (zeebeJob : entities.Job) (zeebePayloadJSON : String) (nomadJob : nomadAPI.Job)
    (heap : Heap) (a : Nat) (h : firstEnv nomadJob = some a) :
    writeEnv zeebeBrokerURL zeebeTasksToFail zeebeJob zeebePayloadJSON nomadJob heap
      = .ok (envWritten zeebeBrokerURL zeebeTasksToFail zeebeJob zeebePayloadJSON a heap) := by
  unfold writeEnv envWritten
  simp only [setEnv_ok _ _ _ _ a h, bind, Except.bind, pure, Except.pure]
  split <;> rfl

theorem writeEnv_error (zeebeBrokerURL : String) (zeebeTasksToFail : List String)
    (zeebeJob : entities.Job) (zeebePayloadJSON : String) (nomadJob : nomadAPI.Job)
    (heap : Heap) (h : firstEnv nomadJob = none) :
    ∃ msg, writeEnv zeebeBrokerURL zeebeTasksToFail zeebeJob zeebePayloadJSON nomadJob heap
      = .error msg := by
  have hs : ∀ hp k v, ∃ msg, setEnv nomadJob hp k v = .error msg := by
    intro hp k v
    unfold firstEnv at h
    unfold setEnv
    cases hg : nomadJob.TaskGroups with
    | nil => exact ⟨_, rfl⟩
    | cons tg tgs =>
      cases ht : tg.Tasks with
      | nil => exact ⟨"index out of range [0] with length 0", by simp [ht]⟩
      | cons t ts =>
        simp only [hg, ht] at h
        exact ⟨"assignment to entry in nil map", by simp [ht, h]⟩
  obtain ⟨msg, hmsg⟩ := hs heap "ZEEBE_JOB_KEY" (strconv.Itoa (int zeebeJob.Key))
  exact ⟨msg, by simp [writeEnv, hmsg, bind, Except.bind]⟩

theorem envWritten_jobKey (url : String) (fail : List String) (job : entities.Job)
    (s : String) (a : Nat) (heap : Heap) :
    GoMap.get (envWritten url fail job s a heap a) "ZEEBE_JOB_KEY"
      = some (strconv.Itoa (int job.Key)) := by
  unfold envWritten
  split <;> simp [Heap.write_same, Heap.write_other_key]

theorem envWritten_payload (url : String) (fail : List String) (job : entities.Job)
    (s : String) (a : Nat) (heap : Heap) :
    GoMap.get (envWritten url fail job s a heap a) "ZEEBE_PAYLOAD" = some s := by
  unfold envWritten
  split <;> simp [Heap.write_same, Heap.write_other_key]

theorem envWritten_brokerURL (url : String) (fail : List String) (job : entities.Job)
    (s : String) (a : Nat) (heap : Heap) :
    GoMap.get (envWritten url fail job s a heap a) "ZEEBE_BROKER_URL" = some url := by
  unfold envWritten
  split <;> simp [Heap.write_same, Heap.write_other_key]

theorem envWritten_duration (url : String) (fail : List String) (job : entities.Job)
    (s : String) (a : Nat) (heap : Heap) :
    GoMap.get (envWritten url fail job s a heap a) "DURATION" = some "2m" := by
  unfold envWritten
  split <;> simp [Heap.write_same, Heap.write_other_key]

theorem envWritten_failFlag (url : String) (fail : List String) (job : entities.Job)
    (s : String) (a : Nat) (heap : Heap) :
    GoMap.get (envWritten url fail job s a heap a) "ZEEBE_FAIL_JOB_FLAG"
      = some (if job.JobHeaders.ElementId ∈ fail then "true" else "false") := by
  unfold envWritten
  split <;> simp [Heap.write_same, Heap.write_other_key, *]

theorem envWritten_other_addr (url : String) (fail : List String) (job : entities.Job)
    (s : String) (a b : Nat) (heap : Heap) (h : b ≠ a) :
    envWritten url fail job s a heap b = heap b := by
  unfold envWritten
  split <;> simp [Heap.write_other_addr, h]

theorem handler_eq_dispatch (rt : Runtime) (zeebeJobType zeebeBrokerURL : String)
    (zeebeTasksToFail : List String) (nomadClient : nomadAPI.Client)
    (nomadJobFactory : NomadJobFactory) (zeebeClient : worker.JobClient)
    (zeebeJob : entities.Job) (heap : Heap) (m : GoMap json.Value) (s : String) (a : Nat)
    (hdec : rt.GetPayloadAsMap zeebeJob = .ok (some m))
    (hmar : rt.Marshal (GoMap.set m "error" (json.Value.bool false)) = .ok s)
    (henv : firstEnv (nomadJobFactory ()) = some a) :
    nomadTriggerHandler rt zeebeJobType zeebeBrokerURL zeebeTasksToFail nomadClient
        nomadJobFactory zeebeClient zeebeJob heap
      = dispatch nomadClient (transactionID zeebeJob)
          { nomadJobFactory () with
            ID := some (transactionID zeebeJob), Name := some (transactionID zeebeJob) }
          (envWritten zeebeBrokerURL zeebeTasksToFail zeebeJob s a heap) := by
  have henv' : firstEnv { nomadJobFactory () with
      ID := some (transactionID zeebeJob), Name := some (transactionID zeebeJob) } = some a := by
    simpa [firstEnv] using henv
  unfold nomadTriggerHandler
  simp only [hdec, hmar, writeEnv_ok _ _ _ _ _ _ a henv']

theorem dispatch_heap (nomadClient : nomadAPI.Client) (tid : String) (spec : nomadAPI.Job)
    (heap : Heap) : (dispatch nomadClient tid spec heap).heap = heap := by
  unfold dispatch
  rcases nomadClient.Info tid with ⟨res, err⟩
  cases err with
  | some e =>
    by_cases hc : strings.Contains e "404" = true
    · cases hr : nomadClient.Register spec heap <;> simp [hc, hr]
    · simp [hc]
  | none =>
    cases res with
    | none => simp
    | some j => cases hs : j.Status <;> simp [hs]

theorem dispatch_found (nomadClient : nomadAPI.Client) (tid : String) (spec : nomadAPI.Job)
    (heap : Heap) (h : (nomadClient.Info tid).2 = none) :
    (dispatch nomadClient tid spec heap).calls = [Call.Info tid] := by
  unfold dispatch
  rcases hi : nomadClient.Info tid with ⟨res, err⟩
  rw [hi] at h
  simp only at h
  subst h
  cases res with
  | none => simp
  | some j => cases hs : j.Status <;> simp [hs]

theorem dispatch_notFound (nomadClient : nomadAPI.Client) (tid : String)
    (spec : nomadAPI.Job) (heap : Heap) (e : String) (h : (nomadClient.Info tid).2 = some e)
    (hc : strings.Contains e "404" = true) :
    (dispatch nomadClient tid spec heap).calls = [Call.Info tid, Call.Register spec heap] := by
  unfold dispatch
  rcases hi : nomadClient.Info tid with ⟨res, err⟩
  rw [hi] at h
  simp only at h
  subst h
  cases hr : nomadClient.Register spec heap <;> simp [hc, hr]

theorem dispatch_otherFailure (nomadClient : nomadAPI.Client) (tid : String)
    (spec : nomadAPI.Job) (heap : Heap) (e : String) (h : (nomadClient.Info tid).2 = some e)
    (hc : strings.Contains e "404" = false) :
    dispatch nomadClient tid spec heap
      = ⟨[Call.Info tid], .fatal ("error querying nomad job: " ++ e), heap⟩ := by
  unfold dispatch
  rcases hi : nomadClient.Info tid with ⟨res, err⟩
  rw [hi] at h
  simp only at h
  subst h
  simp [hc]

theorem int_of_int64 (x : Int) (hlo : -2 ^ 63 ≤ x) (hhi : x < 2 ^ 63) : int x = x := by
  unfold int
  norm_num at hlo hhi ⊢
  omega

theorem transactionID_eq (zeebeJob : entities.Job) :
    transactionID zeebeJob
      = zeebeJob.JobHeaders.BpmnProcessId ++ "_"
          ++ Int.repr zeebeJob.JobHeaders.WorkflowInstanceKey ++ "_"
          ++ zeebeJob.JobHeaders.ElementId ++ "_" ++ Int.repr zeebeJob.Key := by
  simp [transactionID, fmt.Sprintf, fmt.sprintf, String.ext_iff]

/-! ## Lemmas: decimal rendering and the shape of the TransactionID -/

theorem toDigitsCore_eq (gas : Nat) (n : Nat) (hlt : n < gas) (hpos : 0 < n)
    (tail : List Char) :
    Nat.toDigitsCore 10 gas n tail
      = ((Nat.digits 10 n).reverse.map Nat.digitChar) ++ tail := by
  induction gas generalizing n tail with
  | zero => omega
  | succ gas ih =>
    rw [Nat.digits_def' (by norm_num) hpos]
    unfold Nat.toDigitsCore
    by_cases hz : n / 10 = 0
    · simp [hz]
    · simp only [hz, if_false]
      rw [ih (n / 10) (by omega) (by omega)]
      simp

theorem toDigits_pos (n : Nat) (hpos : 0 < n) :
    Nat.toDigits 10 n = (Nat.digits 10 n).reverse.map Nat.digitChar := by
  unfold Nat.toDigits
  rw [toDigitsCore_eq (n + 1) n (by omega) hpos []]
  simp

theorem toDigits_zero : Nat.toDigits 10 0 = ['0'] := by decide

theorem digitVal_digitChar (d : Nat) (h : d < 10) : digitVal (Nat.digitChar d) = d := by
  interval_cases d <;> decide

theorem digitChar_isDigit (d : Nat) (h : d < 10) : (Nat.digitChar d).isDigit = true := by
  interval_cases d <;> decide

theorem toDigits_isDigit (n : Nat) : ∀ c ∈ Nat.toDigits 10 n, c.isDigit = true := by
  intro c hc
  rcases Nat.eq_zero_or_pos n with rfl | hpos
  · rw [toDigits_zero] at hc
    simp at hc
    subst hc
    decide
  · rw [toDigits_pos n hpos] at hc
    simp only [List.mem_map, List.mem_reverse] at hc
    obtain ⟨d, hd, rfl⟩ := hc
    exact digitChar_isDigit d (Nat.digits_lt_base (by norm_num) hd)

theorem ofDigits_toDigits (n : Nat) :
    Nat.ofDigits 10 ((Nat.toDigits 10 n).reverse.map digitVal) = n := by
  rcases Nat.eq_zero_or_pos n with rfl | hpos
  · rw [toDigits_zero]; decide
  · rw [toDigits_pos n hpos]
    have : ((Nat.digits 10 n).reverse.map Nat.digitChar).reverse.map digitVal = Nat.digits 10 n := by
      rw [← List.map_reverse, List.reverse_reverse, List.map_map]
      conv_rhs => rw [← List.map_id (Nat.digits 10 n)]
      apply List.map_congr_left
      intro d hd
      exact digitVal_digitChar d (Nat.digits_lt_base (by norm_num) hd)
    rw [this, Nat.ofDigits_digits]

theorem toDigits_injective (n m : Nat) (h : Nat.toDigits 10 n = Nat.toDigits 10 m) : n = m := by
  rw [← ofDigits_toDigits n, ← ofDigits_toDigits m, h]

theorem repr_data_nonneg (n : Nat) : (Int.repr (Int.ofNat n)).data = Nat.toDigits 10 n := by
  simp [Int.repr, Nat.repr, List.asString]

theorem repr_data_neg (n : Nat) : (Int.repr (Int.negSucc n)).data = '-' :: Nat.toDigits 10 (n + 1) := by
  simp [Int.repr, Nat.repr, List.asString]

theorem repr_no_underscore (x : Int) : '_' ∉ (Int.repr x).data := by
  intro h
  cases x with
  | ofNat n =>
    rw [repr_data_nonneg] at h
    have := toDigits_isDigit n _ h
    exact absurd this (by decide)
  | negSucc n =>
    rw [repr_data_neg] at h
    rcases List.mem_cons.mp h with h | h
    · exact absurd h (by decide)
    · have := toDigits_isDigit _ _ h
      exact absurd this (by decide)

theorem repr_injective (x y : Int) (h : Int.repr x = Int.repr y) : x = y := by
  have hd : (Int.repr x).data = (Int.repr y).data := by rw [h]
  cases x with
  | ofNat n =>
    cases y with
    | ofNat m =>
      rw [repr_data_nonneg, repr_data_nonneg] at hd
      rw [toDigits_injective n m hd]
    | negSucc m =>
      rw [repr_data_nonneg, repr_data_neg] at hd
      have hmem : '-' ∈ Nat.toDigits 10 n := by rw [hd]; simp
      exact absurd (toDigits_isDigit n _ hmem) (by decide)
  | negSucc n =>
    cases y with
    | ofNat m =>
      rw [repr_data_nonneg, repr_data_neg] at hd
      have hmem : '-' ∈ Nat.toDigits 10 m := by rw [← hd]; simp
      exact absurd (toDigits_isDigit m _ hmem) (by decide)
    | negSucc m =>
      rw [repr_data_neg, repr_data_neg] at hd
      have := toDigits_injective _ _ (List.cons.inj hd).2
      have : n = m := by omega
      rw [this]

theorem split_at_sep {α : Type} [DecidableEq α] (c : α) :
    ∀ (xs ys r₁ r₂ : List α), c ∉ xs → c ∉ ys → xs ++ c :: r₁ = ys ++ c :: r₂ →
      xs = ys ∧ r₁ = r₂ := by
  intro xs
  induction xs with
  | nil =>
    intro ys r₁ r₂ _ hy h
    cases ys with
    | nil => simpa using h
    | cons y ys =>
      simp at h
      exact absurd (h.1 ▸ List.mem_cons_self _ _) hy
  | cons x xs ih =>
    intro ys r₁ r₂ hx hy h
    cases ys with
    | nil =>
      simp at h
      exact absurd (h.1 ▸ List.mem_cons_self _ _) hx
    | cons y ys =>
      simp at h
      obtain ⟨rfl, h⟩ := h
      obtain ⟨h₁, h₂⟩ := ih ys r₁ r₂ (fun hm => hx (List.mem_cons_of_mem _ hm))
        (fun hm => hy (List.mem_cons_of_mem _ hm)) h
      exact ⟨by rw [h₁], h₂⟩

theorem transactionID_data (zeebeJob : entities.Job) :
    (transactionID zeebeJob).data
      = zeebeJob.JobHeaders.BpmnProcessId.data ++ '_' ::
          ((Int.repr zeebeJob.JobHeaders.WorkflowInstanceKey).data ++ '_' ::
            (zeebeJob.JobHeaders.ElementId.data ++ '_' :: (Int.repr zeebeJob.Key).data)) := by
  rw [transactionID_eq]
  simp [String.data_append]

theorem transactionID_fields (j₁ j₂ : entities.Job)
    (hp : j₁.JobHeaders.BpmnProcessId = j₂.JobHeaders.BpmnProcessId ∨
      ('_' ∉ j₁.JobHeaders.BpmnProcessId.data ∧ '_' ∉ j₂.JobHeaders.BpmnProcessId.data))
    (h : transactionID j₁ = transactionID j₂) :
    j₁.JobHeaders.WorkflowInstanceKey = j₂.JobHeaders.WorkflowInstanceKey ∧
    j₁.JobHeaders.ElementId = j₂.JobHeaders.ElementId ∧ j₁.Key = j₂.Key := by
  have hd : (transactionID j₁).data = (transactionID j₂).data := by rw [h]
  rw [transactionID_data, transactionID_data] at hd
  have hrest : (Int.repr j₁.JobHeaders.WorkflowInstanceKey).data ++ '_' ::
        (j₁.JobHeaders.ElementId.data ++ '_' :: (Int.repr j₁.Key).data)
      = (Int.repr j₂.JobHeaders.WorkflowInstanceKey).data ++ '_' ::
        (j₂.JobHeaders.ElementId.data ++ '_' :: (Int.repr j₂.Key).data) := by
    rcases hp with hp | ⟨h₁, h₂⟩
    · rw [hp] at hd
      exact List.cons.inj (List.append_cancel_left hd) |>.2
    · exact (split_at_sep '_' _ _ _ _ h₁ h₂ hd).2
  obtain ⟨hw, hrest⟩ := split_at_sep '_' _ _ _ _ (repr_no_underscore _)
    (repr_no_underscore _) hrest
  have hrev := congrArg List.reverse hrest
  simp only [List.reverse_append, List.reverse_cons, List.append_assoc,
    List.singleton_append] at hrev
  obtain ⟨hk, he⟩ := split_at_sep '_' _ _ _ _
    (fun hm => repr_no_underscore _ (List.mem_reverse.mp hm))
    (fun hm => repr_no_underscore _ (List.mem_reverse.mp hm)) hrev
  refine ⟨repr_injective _ _ (String.ext hw), String.ext (List.reverse_injective he),
    repr_injective _ _ (String.ext (List.reverse_injective hk))⟩

theorem transactionID_key (j₁ j₂ : entities.Job)
    (h : transactionID j₁ = transactionID j₂) : j₁.Key = j₂.Key := by
  have hd : (transactionID j₁).data = (transactionID j₂).data := by rw [h]
  rw [transactionID_data, transactionID_data] at hd
  have hrev := congrArg List.reverse hd
  simp only [List.reverse_append, List.reverse_cons, List.append_assoc,
    List.singleton_append] at hrev
  obtain ⟨hk, -⟩ := split_at_sep '_' _ _ _ _
    (fun hm => repr_no_underscore _ (List.mem_reverse.mp hm))
    (fun hm => repr_no_underscore _ (List.mem_reverse.mp hm)) hrev
  exact repr_injective _ _ (String.ext (List.reverse_injective hk))

/-- The join with "_" alone does not separate the headers: with one and the same key,
the headers (order, 1, 2_ship) and (order_1, 2, ship) give the same TransactionID. -/
theorem transactionID_same_key_collision :
    collidingJobA.Key = collidingJobB.Key ∧
    collidingJobA.JobHeaders.ElementId ≠ collidingJobB.JobHeaders.ElementId ∧
    transactionID collidingJobA = "order_1_2_ship_3" ∧
    transactionID collidingJobB = "order_1_2_ship_3" := by
  decide

/-! ## Lemmas: submits of one invocation and of a sequence -/

theorem submits_append (xs ys : List Call) : submits (xs ++ ys) = submits xs ++ submits ys := by
  induction xs with
  | nil => rfl
  | cons c xs ih => cases c <;> simp [submits, ih]

theorem submittedIDs_append (xs ys : List Call) :
    submittedIDs (xs ++ ys) = submittedIDs xs ++ submittedIDs ys := by
  simp [submittedIDs, submits_append, List.filterMap_append]

theorem failZeebeJob_submits (rt : Runtime) (client : worker.JobClient)
    (job : entities.Job) (err : Option String) :
    submits (failZeebeJob rt client job err).1 = [] := by
  unfold failZeebeJob
  cases hd : rt.GetPayloadAsMap job with
  | error e => rfl
  | ok o =>
    cases o with
    | none => rfl
    | some m =>
      simp only []
      cases hp : client.PayloadFromMap (GoMap.set m "error" (json.Value.bool true)) with
      | some e => rfl
      | none =>
        cases hs : client.Send job.Key (GoMap.set m "error" (json.Value.bool true)) <;> rfl

theorem dispatch_submits (nomadClient : nomadAPI.Client) (tid : String)
    (spec : nomadAPI.Job) (heap : Heap) :
    submits (dispatch nomadClient tid spec heap).calls = [] ∨
    (submits (dispatch nomadClient tid spec heap).calls = [spec] ∧
      (nomadClient.Info tid).2 ≠ none) := by
  cases he : (nomadClient.Info tid).2 with
  | none =>
    left
    rw [dispatch_found _ _ _ _ he]
    rfl
  | some e =>
    cases hc : strings.Contains e "404" with
    | true =>
      right
      rw [dispatch_notFound _ _ _ _ e he hc]
      exact ⟨rfl, by simp⟩
    | false =>
      left
      rw [dispatch_otherFailure _ _ _ _ e he hc]
      rfl

theorem handler_submits (rt : Runtime) (zeebeJobType zeebeBrokerURL : String)
    (zeebeTasksToFail : List String) (nomadClient : nomadAPI.Client)
    (nomadJobFactory : NomadJobFactory) (zeebeClient : worker.JobClient)
    (zeebeJob : entities.Job) (heap : Heap) :
    submittedIDs (nomadTriggerHandler rt zeebeJobType zeebeBrokerURL zeebeTasksToFail
        nomadClient nomadJobFactory zeebeClient zeebeJob heap).calls = [] ∨
    (submittedIDs (nomadTriggerHandler rt zeebeJobType zeebeBrokerURL zeebeTasksToFail
        nomadClient nomadJobFactory zeebeClient zeebeJob heap).calls
        = [transactionID zeebeJob] ∧
      (nomadClient.Info (transactionID zeebeJob)).2 ≠ none) := by
  unfold nomadTriggerHandler
  cases hd : rt.GetPayloadAsMap zeebeJob with
  | error e =>
    left
    simp [submittedIDs, failZeebeJob_submits]
  | ok o =>
    cases o with
    | none => left; rfl
    | some m =>
      simp only []
      cases hm : rt.Marshal (GoMap.set m "error" (json.Value.bool false)) with
      | error e =>
        left
        simp [submittedIDs, failZeebeJob_submits]
      | ok s =>
        simp only []
        cases hw : writeEnv zeebeBrokerURL zeebeTasksToFail zeebeJob s
            { nomadJobFactory () with
              ID := some (transactionID zeebeJob), Name := some (transactionID zeebeJob) }
            heap with
        | error msg => left; rfl
        | ok heap' =>
          simp only []
          rcases dispatch_submits nomadClient (transactionID zeebeJob)
            { nomadJobFactory () with
              ID := some (transactionID zeebeJob), Name := some (transactionID zeebeJob) }
            heap' with h | ⟨h, hne⟩
          · left
            simp [submittedIDs, h]
          · right
            exact ⟨by simp [submittedIDs, h], hne⟩

theorem schedulerInfo_miss (registered : List String) (id : String)
    (h : (schedulerInfo registered id).2 ≠ none) : id ∉ registered := by
  intro hmem
  simp [schedulerInfo, hmem] at h

theorem deliver_count (rt : Runtime) (zeebeJobType zeebeBrokerURL : String)
    (zeebeTasksToFail : List String) (nomadJobFactory : NomadJobFactory)
    (ds : List Delivery) :
    ∀ (registered : List String) (heap : Heap) (id : String),
      (submittedIDs (deliver rt zeebeJobType zeebeBrokerURL zeebeTasksToFail
          nomadJobFactory ds registered heap)).count id ≤ 1 ∧
      (id ∈ registered →
        (submittedIDs (deliver rt zeebeJobType zeebeBrokerURL zeebeTasksToFail
          nomadJobFactory ds registered heap)).count id = 0) := by
  induction ds with
  | nil =>
    intro registered heap id
    simp [deliver, submittedIDs, submits]
  | cons d ds ih =>
    intro registered heap id
    have hs := handler_submits rt zeebeJobType zeebeBrokerURL zeebeTasksToFail
      ⟨schedulerInfo registered, d.Register⟩ nomadJobFactory d.zeebeClient d.zeebeJob heap
    unfold deliver
    simp only []
    rcases hs with hs | ⟨hs, hne⟩
    · split
      · rw [submittedIDs_append, hs]
        simpa using ih registered _ id
      · rw [hs]
        simp
    · have hmiss : transactionID d.zeebeJob ∉ registered := schedulerInfo_miss _ _ hne
      split
      · rw [submittedIDs_append, hs]
        have ih' := ih (transactionID d.zeebeJob :: registered)
          (nomadTriggerHandler rt zeebeJobType zeebeBrokerURL zeebeTasksToFail
            ⟨schedulerInfo registered, d.Register⟩ nomadJobFactory d.zeebeClient
            d.zeebeJob heap).heap id
        simp only [List.singleton_append, List.count_cons] at ih' ⊢
        by_cases hid : transactionID d.zeebeJob = id
        · subst hid
          have h0 := ih'.2 (List.mem_cons_self _ _)
          simp [h0, hmiss]
        · have hid' : (transactionID d.zeebeJob == id) = false := by simpa using hid
          simp only [hid', Bool.false_eq_true, if_false, add_zero]
          refine ⟨ih'.1, fun hmem => ih'.2 (List.mem_cons_of_mem _ hmem)⟩
      · rw [hs]
        by_cases hid : transactionID d.zeebeJob = id
        · subst hid
          simp [hmiss]
        · simp [List.count_cons, hid]

/-! ## Lemmas: the JSON fragment reads back what it writes -/

theorem bitLength_bounds (fuel : Nat) : ∀ n : Nat, n ≤ fuel → n ≠ 0 →
    2 ^ (float64.bitLength fuel n - 1) ≤ n ∧ n < 2 ^ float64.bitLength fuel n ∧
      1 ≤ float64.bitLength fuel n := by
  induction fuel with
  | zero => intro n h h0; omega
  | succ fuel ih =>
    intro n hle h0
    unfold float64.bitLength
    simp only [h0, if_false]
    by_cases h2 : n / 2 = 0
    · have h1 : n = 1 := by omega
      subst h1
      cases fuel <;> simp [float64.bitLength]
    · obtain ⟨hlo, hhi, hpos⟩ := ih (n / 2) (by omega) h2
      refine ⟨?_, ?_, by omega⟩
      · have : float64.bitLength fuel (n / 2) + 1 - 1
            = (float64.bitLength fuel (n / 2) - 1) + 1 := by omega
        rw [this, pow_succ]
        omega
      · rw [pow_succ]
        omega

theorem float64_small (neg : Bool) (k : Nat) (hpos : 0 < k) (hk : k < 2 ^ 53) :
    ∃ bits, float64.ofInteger neg k = some bits ∧
      float64.text bits = some ((if neg then "-" else "") ++ Nat.repr k) := by
  obtain ⟨hlo, hhi, hlen⟩ := bitLength_bounds k k (le_refl _) (by omega)
  generalize hL : float64.bitLength k k = len at hlo hhi hlen
  have hlen53 : len ≤ 53 := by
    by_contra hc
    have : 2 ^ 53 ≤ 2 ^ (len - 1) := Nat.pow_le_pow_right (by norm_num) (by omega)
    omega
  obtain ⟨j, hj⟩ : ∃ j, 53 - len = j := ⟨_, rfl⟩
  have hM : 2 ^ 52 ≤ k * 2 ^ j ∧ k * 2 ^ j < 2 ^ 53 := by
    have e1 : 2 ^ 52 = 2 ^ (len - 1) * 2 ^ j := by
      rw [← pow_add]; congr 1; omega
    have e2 : 2 ^ 53 = 2 ^ len * 2 ^ j := by
      rw [← pow_add]; congr 1; omega
    have hp : 0 < 2 ^ j := by positivity
    constructor
    · rw [e1]; exact Nat.mul_le_mul_right _ hlo
    · rw [e2]; exact Nat.mul_lt_mul_of_pos_right hhi hp
  refine ⟨(if neg then 2 ^ 63 else 0) + (1022 + len) * 2 ^ 52 + (k * 2 ^ j - 2 ^ 52), ?_, ?_⟩
  · unfold float64.ofInteger
    simp only [hL, hj]
    rw [if_neg (by omega), if_pos hlen53]
  · generalize hMd : k * 2 ^ j = M at hM
    have hE : 1075 - (1022 + len) = j := by omega
    unfold float64.text
    have hb1 : ((if neg then 2 ^ 63 else 0) + (1022 + len) * 2 ^ 52 + (M - 2 ^ 52)) / 2 ^ 52 % 2048
        = 1022 + len := by
      cases neg <;> norm_num at hM ⊢ <;> omega
    have hb2 : ((if neg then 2 ^ 63 else 0) + (1022 + len) * 2 ^ 52 + (M - 2 ^ 52)) % 2 ^ 52
        = M - 2 ^ 52 := by
      cases neg <;> norm_num at hM ⊢ <;> omega
    have hb3 : ((if neg then 2 ^ 63 else 0) + (1022 + len) * 2 ^ 52 + (M - 2 ^ 52)) / 2 ^ 63
        = if neg then 1 else 0 := by
      cases neg <;> norm_num at hM ⊢ <;> omega
    have hb4 : ¬ (2 ^ 64 ≤ (if neg then 2 ^ 63 else 0) + (1022 + len) * 2 ^ 52 + (M - 2 ^ 52)) := by
      cases neg <;> norm_num at hM ⊢ <;> omega
    have hm : 2 ^ 52 + (M - 2 ^ 52) = M := by omega
    simp only [hb1, hb2, hb3, hm, hE]
    rw [if_neg (by intro h; rcases h with h | h; exact hb4 h; omega), if_neg (by omega),
      if_neg (by omega), ← hMd, Nat.mul_mod_left, if_pos rfl,
      Nat.mul_div_cancel _ (by positivity)]
    cases neg <;> simp

theorem plain_facts (c : Char) (h : json.plain c = true) :
    c ≠ '"' ∧ c ≠ '\\' ∧ ¬ c.toNat < 32 := by
  simp only [json.plain, Bool.and_eq_true, decide_eq_true_eq, bne_iff_ne, ne_eq] at h
  exact ⟨h.1.1.1.1.1.1.2, h.1.1.1.1.1.2, by omega⟩

theorem readString_spec (cs : List Char) (h : cs.all json.plain = true) :
    ∀ (acc rest : List Char),
      json.readString (cs ++ '"' :: rest) acc = .ok (String.mk (acc.reverse ++ cs)) rest := by
  induction cs with
  | nil => intro acc rest; simp [json.readString]
  | cons c cs ih =>
    intro acc rest
    rw [List.all_cons, Bool.and_eq_true] at h
    obtain ⟨h1, h2, h3⟩ := plain_facts c h.1
    rw [List.cons_append, json.readString, if_neg h1, if_neg h2, if_neg h3, ih h.2]
    simp

theorem skipSpace_cons (c : Char) (cs : List Char)
    (h : ¬ (c = ' ' ∨ c = '\t' ∨ c = '\n' ∨ c = '\r')) :
    json.skipSpace (c :: cs) = c :: cs := by
  rw [json.skipSpace, if_neg h]

theorem isDigit_facts (c : Char) (h : c.isDigit = true) :
    c ≠ '"' ∧ c ≠ '-' ∧ ¬ (c = ' ' ∨ c = '\t' ∨ c = '\n' ∨ c = '\r') := by
  simp only [Char.isDigit, Bool.and_eq_true, decide_eq_true_eq] at h
  refine ⟨?_, ?_, ?_⟩
  · rintro rfl; revert h; decide
  · rintro rfl; revert h; decide
  · rintro (rfl | rfl | rfl | rfl) <;> revert h <;> decide

theorem readDigits_spec (ds : List Char) (hd : ∀ c ∈ ds, c.isDigit = true) (d : Char)
    (rest : List Char) (hnd : d.isDigit = false) :
    ∀ acc, json.readDigits (ds ++ d :: rest) acc
      = (ds.foldl (fun a c => digitVal c + 10 * a) acc, d :: rest) := by
  induction ds with
  | nil => intro acc; simp [json.readDigits, hnd]
  | cons c cs ih =>
    intro acc
    have hc := hd c (List.mem_cons_self _ _)
    rw [List.cons_append, json.readDigits, if_pos hc,
      ih (fun x hx => hd x (List.mem_cons_of_mem _ hx))]
    rfl

theorem foldl_toDigits (k : Nat) :
    (Nat.toDigits 10 k).foldl (fun a c => digitVal c + 10 * a) 0 = k := by
  have h := ofDigits_toDigits k
  rw [Nat.ofDigits_eq_foldr, List.foldr_map, List.foldr_reverse] at h
  simpa using h

theorem toDigits_ne_nil (k : Nat) : Nat.toDigits 10 k ≠ [] := by
  intro h
  have hk := foldl_toDigits k
  rw [h] at hk
  simp at hk
  subst hk
  exact absurd h (by decide)

theorem toDigits_head_ne_zero (k : Nat) (hpos : 0 < k) (c : Char) (cs : List Char)
    (h : Nat.toDigits 10 k = c :: cs) : c ≠ '0' := by
  rintro rfl
  rw [toDigits_pos k hpos] at h
  have hne : Nat.digits 10 k ≠ [] := Nat.digits_ne_nil_iff_ne_zero.mpr (by omega)
  have hlast := Nat.getLast_digit_ne_zero 10 (m := k) (by omega)
  have hmem := List.getLast_mem hne
  have hlt := Nat.digits_lt_base (b := 10) (by norm_num) hmem
  -- the head of the reversed list is the last digit
  have hrev : (Nat.digits 10 k).reverse = (Nat.digits 10 k).getLast hne ::
      ((Nat.digits 10 k).dropLast).reverse := by
    conv_lhs => rw [← List.dropLast_append_getLast hne]
    simp
  rw [hrev, List.map_cons] at h
  have hc := (List.cons.inj h).1
  generalize (Nat.digits 10 k).getLast hne = d at hlast hlt hc
  interval_cases d <;> first | exact hlast rfl | exact absurd hc (by decide)

theorem afterValue_facts (d : Char) (h : json.afterValue d) :
    d.isDigit = false ∧ ¬ (d = '.' ∨ d = 'e' ∨ d = 'E') ∧
      ¬ (d = ' ' ∨ d = '\t' ∨ d = '\n' ∨ d = '\r') := by
  rcases h with rfl | rfl <;> decide

theorem readNumber_spec (neg : Bool) (k : Nat) (hk : k < 2 ^ 53) (hnz : neg = true → 0 < k)
    (d : Char) (rest : List Char) (hd : json.afterValue d) :
    ∃ bits, float64.ofInteger neg k = some bits ∧
      json.readNumber neg (Nat.toDigits 10 k ++ d :: rest)
        = .ok (json.Value.number bits) (d :: rest) ∧
      float64.text bits = some ((if neg then "-" else "") ++ Nat.repr k) := by
  obtain ⟨hd1, hd2, -⟩ := afterValue_facts d hd
  rcases Nat.eq_zero_or_pos k with rfl | hpos
  · have hneg : neg = false := by
      cases neg
      · rfl
      · exact absurd (hnz rfl) (by decide)
    subst hneg
    refine ⟨0, by decide, ?_, by decide⟩
    rw [toDigits_zero]
    simp [json.readNumber, hd1, hd2, float64.ofInteger]
  · obtain ⟨bits, hb, ht⟩ := float64_small neg k hpos hk
    refine ⟨bits, hb, ?_, ht⟩
    cases hds : Nat.toDigits 10 k with
    | nil => exact absurd hds (toDigits_ne_nil k)
    | cons c cs =>
      have hc0 := toDigits_head_ne_zero k hpos c cs hds
      have hdig : ∀ x ∈ c :: cs, x.isDigit = true := by
        intro x hx
        exact toDigits_isDigit k x (hds ▸ hx)
      have hrd := readDigits_spec (c :: cs) hdig d rest hd1 0
      rw [← hds, foldl_toDigits] at hrd
      rw [hds] at hrd
      rw [List.cons_append, json.readNumber, if_pos (hdig c (List.mem_cons_self _ _)),
        if_neg hc0]
      rw [List.cons_append] at hrd
      simp only [hrd, hd1, hd2, hb, if_false, Bool.false_eq_true]

theorem text_data_head (v : json.Literal) (hv : v.covered) :
    ∃ c cs, v.text.data = c :: cs ∧ ¬ (c = ' ' ∨ c = '\t' ∨ c = '\n' ∨ c = '\r') := by
  cases v with
  | null => exact ⟨'n', _, rfl, by decide⟩
  | bool b => cases b <;> exact ⟨_, _, rfl, by decide⟩
  | string s => exact ⟨'"', s.data ++ ['"'], by simp [json.Literal.text], by decide⟩
  | integer n =>
    cases n with
    | ofNat k =>
      cases hds : Nat.toDigits 10 k with
      | nil => exact absurd hds (toDigits_ne_nil k)
      | cons c cs =>
        refine ⟨c, cs, ?_, (isDigit_facts c (toDigits_isDigit k c (hds ▸ List.mem_cons_self _ _))).2.2⟩
        show (Int.repr (Int.ofNat k)).data = _
        rw [repr_data_nonneg, hds]
    | negSucc k => exact ⟨'-', _, repr_data_neg k, by decide⟩

theorem readValue_spec (v : json.Literal) (hv : v.covered) (d : Char) (rest : List Char)
    (hd : json.afterValue d) :
    json.readValue (v.text.data ++ d :: rest) = .ok v.value (d :: rest) ∧
      json.valueText v.value = some v.text := by
  cases v with
  | null =>
    exact ⟨by simp [json.Literal.text, json.Literal.value, json.readValue, json.readWord], rfl⟩
  | bool b =>
    cases b
    · exact ⟨by simp [json.Literal.text, json.Literal.value, json.readValue, json.readWord],
        rfl⟩
    · exact ⟨by simp [json.Literal.text, json.Literal.value, json.readValue, json.readWord],
        rfl⟩
  | string s =>
    have hs : s.data.all json.plain = true := hv
    constructor
    · have h := readString_spec s.data hs [] (d :: rest)
      have ht : (json.Literal.string s).text.data ++ d :: rest
          = '"' :: (s.data ++ '"' :: d :: rest) := by
        simp [json.Literal.text]
      rw [ht, json.readValue, if_pos rfl, h]
      simp [json.Literal.value]
    · have hq : json.quote s = some ("\"" ++ s ++ "\"") := by
        unfold json.quote
        exact if_pos hs
      simp [json.Literal.value, json.valueText, json.Literal.text, hq]
  | integer n =>
    have hn : n.natAbs < 2 ^ 53 := hv
    cases n with
    | ofNat k =>
      obtain ⟨bits, hb, hr, ht⟩ := readNumber_spec false k hn (by simp) d rest hd
      have hval : (json.Literal.integer (Int.ofNat k)).value = json.Value.number bits := by
        have : decide (Int.ofNat k < 0) = false := by simp
        have hab : (Int.ofNat k).natAbs = k := rfl
        simp only [json.Literal.value, this, hab, hb]
      have htext : (json.Literal.integer (Int.ofNat k)).text = Nat.repr k := rfl
      constructor
      · cases hds : Nat.toDigits 10 k with
        | nil => exact absurd hds (toDigits_ne_nil k)
        | cons c cs =>
          have hc := toDigits_isDigit k c (hds ▸ List.mem_cons_self _ _)
          obtain ⟨hc1, hc2, -⟩ := isDigit_facts c hc
          have hdata : (json.Literal.integer (Int.ofNat k)).text.data = c :: cs := by
            rw [htext]
            show (Nat.toDigits 10 k).asString.data = _
            rw [hds]
            rfl
          rw [hds] at hr
          rw [hdata, hval, List.cons_append, json.readValue, if_neg hc1, if_neg hc2,
            if_pos hc]
          exact hr
      · rw [hval, htext]
        simpa [json.valueText] using ht
    | negSucc k =>
      obtain ⟨bits, hb, hr, ht⟩ := readNumber_spec true (k + 1) hn (by simp) d rest hd
      have hval : (json.Literal.integer (Int.negSucc k)).value = json.Value.number bits := by
        have : decide (Int.negSucc k < 0) = true := by simp [Int.negSucc_lt_zero]
        have hab : (Int.negSucc k).natAbs = k + 1 := rfl
        simp only [json.Literal.value, this, hab, hb]
      have htext : (json.Literal.integer (Int.negSucc k)).text = "-" ++ Nat.repr (k + 1) := rfl
      constructor
      · have hdata : (json.Literal.integer (Int.negSucc k)).text.data
            = '-' :: Nat.toDigits 10 (k + 1) := repr_data_neg k
        rw [hdata, hval, List.cons_append, json.readValue, if_neg (by decide), if_pos rfl]
        exact hr
      · rw [hval, htext]
        simpa [json.valueText] using ht

theorem membersText_data_single (k v : String) :
    (json.membersText [(k, v)]).data = k.data ++ ':' :: v.data := by
  simp [json.membersText, String.data_append]

theorem membersText_data_cons (k v : String) (e : String × String)
    (es : List (String × String)) :
    (json.membersText ((k, v) :: e :: es)).data
      = k.data ++ ':' :: (v.data ++ ',' :: (json.membersText (e :: es)).data) := by
  simp [json.membersText, String.data_append]

theorem readMembers_entry (fuel : Nat) (k : String) (v : json.Literal)
    (hk : k.data.all json.plain = true) (hv : v.covered) (d : Char) (rest : List Char)
    (hd : json.afterValue d) (m : GoMap json.Value) :
    json.readMembers (fuel + 1)
        (("\"" ++ k ++ "\"").data ++ ':' :: (v.text.data ++ d :: rest)) m
      = if d = ',' then json.readMembers fuel rest (GoMap.set m k v.value)
        else .ok (GoMap.set m k v.value) rest := by
  have ht : ("\"" ++ k ++ "\"").data ++ ':' :: (v.text.data ++ d :: rest)
      = '"' :: (k.data ++ '"' :: (':' :: (v.text.data ++ d :: rest))) := by
    simp [String.data_append]
  obtain ⟨c, cs, hcs, hc⟩ := text_data_head v hv
  obtain ⟨-, -, hds⟩ := afterValue_facts d hd
  have hrs := readString_spec k.data hk [] (':' :: (v.text.data ++ d :: rest))
  have hkey : String.mk ([].reverse ++ k.data) = k := by simp
  rw [hkey] at hrs
  have hsp : json.skipSpace (v.text.data ++ d :: rest) = v.text.data ++ d :: rest := by
    rw [hcs, List.cons_append, skipSpace_cons _ _ hc]
  rw [ht, json.readMembers, skipSpace_cons _ _ (by decide)]
  simp only [if_true, hrs]
  rw [skipSpace_cons _ _ (by decide)]
  simp only [if_true, hsp, (readValue_spec v hv d rest hd).1]
  rw [skipSpace_cons _ _ hds]
  simp only []
  rcases hd with rfl | rfl
  · simp
  · simp

theorem readMembers_spec (o : List (String × json.Literal)) :
    o ≠ [] → (∀ e ∈ o, e.1.data.all json.plain = true ∧ e.2.covered) →
    ∀ (fuel : Nat), o.length ≤ fuel → ∀ (m : GoMap json.Value) (tail : List Char),
      json.readMembers fuel
          ((json.membersText (o.map fun e => ("\"" ++ e.1 ++ "\"", e.2.text))).data
            ++ '\x7d' :: tail) m
        = .ok (o.foldl (fun m e => GoMap.set m e.1 e.2.value) m) tail := by
  induction o with
  | nil => intro h; exact absurd rfl h
  | cons e es ih =>
    intro _ hcov fuel hfuel m tail
    obtain ⟨k, v⟩ := e
    have he := hcov (k, v) (List.mem_cons_self _ _)
    cases fuel with
    | zero => simp at hfuel
    | succ fuel =>
      cases es with
      | nil =>
        simp only [List.map_cons, List.map_nil, membersText_data_single, List.append_assoc,
          List.cons_append]
        rw [readMembers_entry fuel k v he.1 he.2 '\x7d' tail (Or.inr rfl) m]
        simp
      | cons e' es' =>
        simp only [List.map_cons, membersText_data_cons, List.append_assoc,
          List.cons_append]
        rw [readMembers_entry fuel k v he.1 he.2 ',' _ (Or.inl rfl) m]
        simp only [if_true]
        have := ih (by simp) (fun x hx => hcov x (List.mem_cons_of_mem _ hx)) fuel
          (by simp at hfuel ⊢; omega) (GoMap.set m k v.value) tail
        simp only [List.map_cons] at this
        rw [this]
        simp

theorem GoMap.set_new {V : Type} (m : GoMap V) (k : String) (v : V)
    (h : k ∉ m.map fun e => e.1) : GoMap.set m k v = m ++ [(k, v)] := by
  induction m with
  | nil => rfl
  | cons e m ih =>
    obtain ⟨k', v'⟩ := e
    simp only [List.map_cons, List.mem_cons, not_or] at h
    simp only [GoMap.set, if_neg (Ne.symm h.1), ih h.2, List.cons_append]

theorem foldl_set_distinct {V W : Type} (g : W → V) (o : List (String × W)) :
    ∀ m : GoMap V, (o.map fun e => e.1).Nodup →
      (∀ k ∈ o.map (fun e => e.1), k ∉ m.map fun e => e.1) →
      o.foldl (fun m e => GoMap.set m e.1 (g e.2)) m = m ++ o.map fun e => (e.1, g e.2) := by
  induction o with
  | nil => intro m _ _; simp
  | cons e es ih =>
    intro m hnd hdis
    obtain ⟨k, w⟩ := e
    simp only [List.map_cons, List.nodup_cons] at hnd
    have hk : k ∉ m.map fun e => e.1 := hdis k (by simp)
    rw [List.foldl_cons, GoMap.set_new m k (g w) hk, ih _ hnd.2]
    · simp
    · intro k' hk' hmem
      simp only [List.map_append, List.map_cons, List.map_nil, List.mem_append,
        List.mem_singleton] at hmem
      rcases hmem with hmem | rfl
      · exact hdis k' (by simp [hk']) hmem
      · exact hnd.1 hk'

theorem length_le_membersText (o : List (String × String)) :
    o.length ≤ (json.membersText o).data.length + 1 := by
  induction o with
  | nil => simp
  | cons e es ih =>
    obtain ⟨k, v⟩ := e
    cases es with
    | nil => simp
    | cons e' es' =>
      rw [membersText_data_cons]
      simp only [List.length_cons, List.length_append] at ih ⊢
      omega

theorem Unmarshal_objectText (o : List (String × json.Literal)) (hcov : json.covered o) :
    json.Unmarshal (json.objectText o)
      = some (.ok (some (o.map fun e => (e.1, e.2.value)))) := by
  have hdata : (json.objectText o).toList
      = '\x7b' :: ((json.membersText (o.map fun e => ("\"" ++ e.1 ++ "\"", e.2.text))).data
          ++ '\x7d' :: []) := by
    simp [json.objectText, String.data_append]
  unfold json.Unmarshal
  rw [hdata, skipSpace_cons _ _ (by decide)]
  simp only [if_true]
  cases o with
  | nil => rfl
  | cons e es =>
    have hspec := readMembers_spec (e :: es) (by simp) hcov.1
    obtain ⟨k, v⟩ := e
    have hhead : ∃ cs, (json.membersText (((k, v) :: es).map fun e =>
        ("\"" ++ e.1 ++ "\"", e.2.text))).data = '"' :: cs := by
      have hq : ("\"" ++ k ++ "\"").data = '"' :: (k.data ++ ['"']) := by
        simp [String.data_append]
      cases es with
      | nil =>
        rw [List.map_cons, List.map_nil, membersText_data_single, hq]
        exact ⟨_, rfl⟩
      | cons e' es' =>
        rw [List.map_cons, List.map_cons, membersText_data_cons, hq]
        exact ⟨_, rfl⟩
    obtain ⟨cs, hcs⟩ := hhead
    have hfuel : ((k, v) :: es).length
        ≤ ((json.membersText (((k, v) :: es).map fun e =>
            ("\"" ++ e.1 ++ "\"", e.2.text))).data ++ ['\x7d']).length := by
      have := length_le_membersText (((k, v) :: es).map fun e =>
        ("\"" ++ e.1 ++ "\"", e.2.text))
      simp only [List.length_map] at this
      simp only [List.length_append, List.length_singleton]
      exact this
    have h := hspec _ hfuel [] []
    rw [foldl_set_distinct json.Literal.value _ [] hcov.2 (by simp)] at h
    rw [hcs] at h ⊢
    rw [List.cons_append, skipSpace_cons _ _ (by decide)]
    simp only [show ('"' = '\x7d') = False from by decide, if_false]
    rw [List.cons_append] at h
    rw [h]
    simp [json.skipSpace]

theorem valueText_value (v : json.Literal) (hv : v.covered) :
    json.valueText v.value = some v.text :=
  (readValue_spec v hv ',' [] (Or.inl rfl)).2

theorem entryTexts_spec (o : List (String × json.Literal))
    (hcov : ∀ e ∈ o, e.1.data.all json.plain = true ∧ e.2.covered) :
    json.entryTexts (o.map fun e => (e.1, e.2.value))
      = some (o.map fun e => ("\"" ++ e.1 ++ "\"", e.2.text)) := by
  induction o with
  | nil => rfl
  | cons e es ih =>
    obtain ⟨k, v⟩ := e
    have he := hcov (k, v) (List.mem_cons_self _ _)
    have hq : json.quote k = some ("\"" ++ k ++ "\"") := by
      unfold json.quote
      exact if_pos he.1
    simp only [List.map_cons, json.entryTexts, hq, valueText_value v he.2,
      ih (fun x hx => hcov x (List.mem_cons_of_mem _ hx))]

theorem insertEntry_map {V W : Type} (g : W → V) (k : String) (w : W)
    (es : List (String × W)) :
    json.insertEntry k (g w) (es.map fun e => (e.1, g e.2))
      = (json.insertEntry k w es).map fun e => (e.1, g e.2) := by
  induction es with
  | nil => rfl
  | cons e es ih =>
    obtain ⟨k', w'⟩ := e
    simp only [List.map_cons, json.insertEntry]
    split
    · rfl
    · rw [ih]
      rfl

theorem sortEntries_map {V W : Type} (g : W → V) (o : List (String × W)) :
    json.sortEntries (o.map fun e => (e.1, g e.2))
      = (json.sortEntries o).map fun e => (e.1, g e.2) := by
  induction o with
  | nil => rfl
  | cons e es ih =>
    obtain ⟨k, w⟩ := e
    simp only [List.map_cons, json.sortEntries, ih, insertEntry_map]

theorem GoMap.set_map {V W : Type} (g : W → V) (o : GoMap W) (k : String) (w : W) :
    GoMap.set (o.map fun e => (e.1, g e.2)) k (g w)
      = (GoMap.set o k w).map fun e => (e.1, g e.2) := by
  induction o with
  | nil => rfl
  | cons e es ih =>
    obtain ⟨k', w'⟩ := e
    simp only [List.map_cons, GoMap.set]
    split
    · rfl
    · rw [ih]
      rfl

theorem mem_insertEntry {V : Type} (k : String) (v : V) (es : List (String × V))
    (x : String × V) (h : x ∈ json.insertEntry k v es) : x = (k, v) ∨ x ∈ es := by
  induction es with
  | nil => simpa [json.insertEntry] using h
  | cons e es ih =>
    obtain ⟨k', v'⟩ := e
    simp only [json.insertEntry] at h
    split at h
    · simpa using h
    · rcases List.mem_cons.mp h with h | h
      · exact Or.inr (h ▸ List.mem_cons_self _ _)
      · rcases ih h with h | h
        · exact Or.inl h
        · exact Or.inr (List.mem_cons_of_mem _ h)

theorem mem_sortEntries {V : Type} (o : List (String × V)) (x : String × V)
    (h : x ∈ json.sortEntries o) : x ∈ o := by
  induction o with
  | nil => simp [json.sortEntries] at h
  | cons e es ih =>
    obtain ⟨k, v⟩ := e
    simp only [json.sortEntries] at h
    rcases mem_insertEntry k v _ x h with h | h
    · exact h ▸ List.mem_cons_self _ _
    · exact List.mem_cons_of_mem _ (ih h)

theorem GoMap.mem_set {V : Type} (m : GoMap V) (k : String) (v : V) (x : String × V)
    (h : x ∈ GoMap.set m k v) : x = (k, v) ∨ x ∈ m := by
  induction m with
  | nil => simpa [GoMap.set] using h
  | cons e es ih =>
    obtain ⟨k', v'⟩ := e
    simp only [GoMap.set] at h
    split at h
    · rcases List.mem_cons.mp h with h | h
      · exact Or.inl h
      · exact Or.inr (List.mem_cons_of_mem _ h)
    · rcases List.mem_cons.mp h with h | h
      · exact Or.inr (h ▸ List.mem_cons_self _ _)
      · rcases ih h with h | h
        · exact Or.inl h
        · exact Or.inr (List.mem_cons_of_mem _ h)

theorem Marshal_error_false (o : List (String × json.Literal)) (hcov : json.covered o) :
    json.Marshal (GoMap.set (o.map fun e => (e.1, e.2.value)) "error"
        (json.Value.bool false))
      = some (json.objectText
          (json.sortEntries (GoMap.set o "error" (json.Literal.bool false)))) := by
  have hset := GoMap.set_map json.Literal.value o "error" (json.Literal.bool false)
  have hv : (json.Literal.bool false).value = json.Value.bool false := rfl
  rw [hv] at hset
  have hcov' : ∀ e ∈ json.sortEntries (GoMap.set o "error" (json.Literal.bool false)),
      e.1.data.all json.plain = true ∧ e.2.covered := by
    intro e he
    rcases GoMap.mem_set _ _ _ _ (mem_sortEntries _ _ he) with h | h
    · subst h
      exact ⟨by decide, trivial⟩
    · exact hcov.1 e h
  unfold json.Marshal
  rw [hset, sortEntries_map, entryTexts_spec _ hcov']
  rfl

theorem GoMap.keys_set {V : Type} (m : GoMap V) (k : String) (v : V) (x : String) :
    x ∈ (GoMap.set m k v).map (fun e => e.1) ↔ x = k ∨ x ∈ m.map (fun e => e.1) := by
  induction m with
  | nil => simp [GoMap.set]
  | cons e es ih =>
    obtain ⟨k', v'⟩ := e
    simp only [GoMap.set]
    split
    · rename_i h
      subst h
      simp
    · simp only [List.map_cons, List.mem_cons, ih]
      tauto

theorem GoMap.nodup_set {V : Type} (m : GoMap V) (k : String) (v : V)
    (h : (m.map fun e => e.1).Nodup) : ((GoMap.set m k v).map fun e => e.1).Nodup := by
  induction m with
  | nil => simp [GoMap.set]
  | cons e es ih =>
    obtain ⟨k', v'⟩ := e
    simp only [List.map_cons, List.nodup_cons] at h
    simp only [GoMap.set]
    split
    · rename_i hk
      subst hk
      simpa using h
    · rename_i hk
      simp only [List.map_cons, List.nodup_cons]
      refine ⟨?_, ih h.2⟩
      intro hmem
      rcases (GoMap.keys_set es k v k').mp hmem with h' | h'
      · exact hk h'
      · exact h.1 h'

theorem get_insertEntry {V : Type} (k' : String) (v' : V) (es : List (String × V))
    (hk : k' ∉ es.map fun e => e.1) (k : String) :
    GoMap.get (json.insertEntry k' v' es) k
      = if k' = k then some v' else GoMap.get es k := by
  induction es with
  | nil => simp [json.insertEntry, GoMap.get]
  | cons e es ih =>
    obtain ⟨k₀, v₀⟩ := e
    simp only [List.map_cons, List.mem_cons, not_or] at hk
    simp only [json.insertEntry]
    split
    · simp [GoMap.get]
    · simp only [GoMap.get, ih hk.2]
      by_cases h₀ : k₀ = k
      · have : ¬ k' = k := fun h => hk.1 (h.trans h₀.symm)
        simp [h₀, this]
      · simp [h₀]

theorem keys_sortEntries {V : Type} (o : List (String × V)) (x : String)
    (h : x ∈ (json.sortEntries o).map fun e => e.1) : x ∈ o.map fun e => e.1 := by
  obtain ⟨e, he, rfl⟩ := List.mem_map.mp h
  exact List.mem_map.mpr ⟨e, mem_sortEntries o e he, rfl⟩

theorem get_sortEntries {V : Type} (o : List (String × V))
    (h : (o.map fun e => e.1).Nodup) (k : String) :
    GoMap.get (json.sortEntries o) k = GoMap.get o k := by
  induction o with
  | nil => rfl
  | cons e es ih =>
    obtain ⟨k₀, v₀⟩ := e
    simp only [List.map_cons, List.nodup_cons] at h
    simp only [json.sortEntries]
    rw [get_insertEntry k₀ v₀ _ (fun hm => h.1 (keys_sortEntries es k₀ hm)), ih h.2]
    rfl

theorem get_sorted_error_false (o : List (String × json.Literal))
    (h : (o.map fun e => e.1).Nodup) (k : String) :
    GoMap.get (json.sortEntries (GoMap.set o "error" (json.Literal.bool false))) k
      = if k = "error" then some (json.Literal.bool false) else GoMap.get o k := by
  rw [get_sortEntries _ (GoMap.nodup_set o _ _ h)]
  by_cases hk : k = "error"
  · subst hk
    simp [GoMap.get_set_self]
  · simp [hk, GoMap.get_set_other _ _ _ _ hk]

/-! ## Lemmas: what the handler builds, and the scenarios -/

theorem handler_builds (rt : Runtime) (zeebeJobType zeebeBrokerURL : String)
    (zeebeTasksToFail : List String) (nomadJobFactory : NomadJobFactory)
    (zeebeJob : entities.Job) (heap : Heap) (m : GoMap json.Value) (s : String) (a : Nat)
    (hdec : rt.GetPayloadAsMap zeebeJob = .ok (some m))
    (hmar : rt.Marshal (GoMap.set m "error" (json.Value.bool false)) = .ok s)
    (henv : firstEnv (nomadJobFactory ()) = some a) :
    ∃ spec heap',
      (∀ nomadClient zeebeClient,
        nomadTriggerHandler rt zeebeJobType zeebeBrokerURL zeebeTasksToFail
            nomadClient nomadJobFactory zeebeClient zeebeJob heap
          = dispatch nomadClient (transactionID zeebeJob) spec heap') ∧
      spec.ID = some (transactionID zeebeJob) ∧ spec.Name = some (transactionID zeebeJob) ∧
      firstEnv spec = some a ∧
      heap' = envWritten zeebeBrokerURL zeebeTasksToFail zeebeJob s a heap := by
  refine ⟨{ nomadJobFactory () with
      ID := some (transactionID zeebeJob), Name := some (transactionID zeebeJob) },
    envWritten zeebeBrokerURL zeebeTasksToFail zeebeJob s a heap, ?_, rfl, rfl, ?_, rfl⟩
  · intro nomadClient zeebeClient
    exact handler_eq_dispatch rt zeebeJobType zeebeBrokerURL zeebeTasksToFail nomadClient
      nomadJobFactory zeebeClient zeebeJob heap m s a hdec hmar henv
  · simpa [firstEnv] using henv

/-- Whatever the decoder and the encoder are: `ZEEBE_PAYLOAD` is the encoding of the
decoded map `m` with "error" set to false and every other key bound as in `m`. -/
theorem payload_reencoded (rt : Runtime) (zeebeJobType zeebeBrokerURL : String)
    (zeebeTasksToFail : List String) (nomadJobFactory : NomadJobFactory)
    (zeebeJob : entities.Job) (heap : Heap) (m : GoMap json.Value) (s : String) (a : Nat)
    (hdec : rt.GetPayloadAsMap zeebeJob = .ok (some m))
    (hmar : rt.Marshal (GoMap.set m "error" (json.Value.bool false)) = .ok s)
    (henv : firstEnv (nomadJobFactory ()) = some a) :
    ∃ spec heap',
      (∀ nomadClient zeebeClient,
        nomadTriggerHandler rt zeebeJobType zeebeBrokerURL zeebeTasksToFail
            nomadClient nomadJobFactory zeebeClient zeebeJob heap
          = dispatch nomadClient (transactionID zeebeJob) spec heap') ∧
      firstEnv spec = some a ∧
      ∃ m' : GoMap json.Value,
        rt.Marshal m' = .ok s ∧
        GoMap.get (heap' a) "ZEEBE_PAYLOAD" = some s ∧
        GoMap.get m' "error" = some (json.Value.bool false) ∧
        ∀ k, k ≠ "error" → GoMap.get m' k = GoMap.get m k := by
  obtain ⟨spec, heap', h, -, -, hfe, rfl⟩ := handler_builds rt zeebeJobType zeebeBrokerURL
    zeebeTasksToFail nomadJobFactory zeebeJob heap m s a hdec hmar henv
  exact ⟨spec, _, h, hfe, _, hmar, envWritten_payload _ _ _ _ _ _,
    GoMap.get_set_self _ _ _, fun k hk => GoMap.get_set_other _ _ _ _ hk⟩

/-- On the payload text: for the compact JSON text of a flat object of covered literals,
`ZEEBE_PAYLOAD` is the JSON text of the object in which "error" is false and every other
key has its original value, keys sorted. -/
theorem payload_text_reencoded (zeebeJobType zeebeBrokerURL : String)
    (zeebeTasksToFail : List String) (nomadJobFactory : NomadJobFactory)
    (zeebeJob : entities.Job) (heap : Heap) (a : Nat)
    (o : List (String × json.Literal)) (hcov : json.covered o)
    (hpayload : zeebeJob.Payload = json.objectText o)
    (henv : firstEnv (nomadJobFactory ()) = some a) :
    ∃ spec heap',
      (∀ nomadClient zeebeClient,
        nomadTriggerHandler encodingJSON zeebeJobType zeebeBrokerURL zeebeTasksToFail
            nomadClient nomadJobFactory zeebeClient zeebeJob heap
          = dispatch nomadClient (transactionID zeebeJob) spec heap') ∧
      firstEnv spec = some a ∧
      GoMap.get (heap' a) "ZEEBE_PAYLOAD"
        = some (json.objectText
            (json.sortEntries (GoMap.set o "error" (json.Literal.bool false)))) := by
  have hdec : encodingJSON.GetPayloadAsMap zeebeJob
      = .ok (some (o.map fun e => (e.1, e.2.value))) := by
    simp only [encodingJSON, hpayload, Unmarshal_objectText o hcov]
  have hmar : encodingJSON.Marshal (GoMap.set (o.map fun e => (e.1, e.2.value)) "error"
      (json.Value.bool false))
      = .ok (json.objectText
          (json.sortEntries (GoMap.set o "error" (json.Literal.bool false)))) := by
    simp only [encodingJSON, Marshal_error_false o hcov]
  obtain ⟨spec, heap', h, -, -, hfe, rfl⟩ := handler_builds encodingJSON zeebeJobType
    zeebeBrokerURL zeebeTasksToFail nomadJobFactory zeebeJob heap _ _ a hdec hmar henv
  exact ⟨spec, _, h, hfe, envWritten_payload _ _ _ _ _ _⟩

/-- The redelivery scenario of the spec: the scenario job delivered twice to an empty
scheduler is looked up twice and submitted once. -/
theorem redelivery_scenario :
    lookups (deliver encodingJSON "action" "10.0.2.2:26500" []
        (newNomadJobFactory scenarioTemplate)
        [⟨scenarioJob, scenarioZeebeClient, fun _ _ => none⟩,
          ⟨scenarioJob, scenarioZeebeClient, fun _ _ => none⟩] [] scenarioHeap)
      = ["p1_7_step1_42", "p1_7_step1_42"] ∧
    submittedIDs (deliver encodingJSON "action" "10.0.2.2:26500" []
        (newNomadJobFactory scenarioTemplate)
        [⟨scenarioJob, scenarioZeebeClient, fun _ _ => none⟩,
          ⟨scenarioJob, scenarioZeebeClient, fun _ _ => none⟩] [] scenarioHeap)
      = ["p1_7_step1_42"] := by
  decide

/-- On a payload that fails to decode the handler makes no call at all and ends fatally
in the fallback, which decodes the payload again. -/
theorem decode_failure_is_fatal (rt : Runtime) (zeebeJobType zeebeBrokerURL : String)
    (zeebeTasksToFail : List String) (nomadClient : nomadAPI.Client)
    (nomadJobFactory : NomadJobFactory) (zeebeClient : worker.JobClient)
    (zeebeJob : entities.Job) (heap : Heap) (err : String)
    (hdec : rt.GetPayloadAsMap zeebeJob = .error err) :
    (nomadTriggerHandler rt zeebeJobType zeebeBrokerURL zeebeTasksToFail nomadClient
        nomadJobFactory zeebeClient zeebeJob heap).calls = [] ∧
    (nomadTriggerHandler rt zeebeJobType zeebeBrokerURL zeebeTasksToFail nomadClient
        nomadJobFactory zeebeClient zeebeJob heap).outcome
      = Outcome.fatal ("error getting payload: " ++ err) := by
  constructor <;> simp [nomadTriggerHandler, failZeebeJob, hdec]

/-- On a payload that decodes to a nil map the handler panics before any call. -/
theorem nil_payload_panics (rt : Runtime) (zeebeJobType zeebeBrokerURL : String)
    (zeebeTasksToFail : List String) (nomadClient : nomadAPI.Client)
    (nomadJobFactory : NomadJobFactory) (zeebeClient : worker.JobClient)
    (zeebeJob : entities.Job) (heap : Heap)
    (hdec : rt.GetPayloadAsMap zeebeJob = .ok none) :
    (nomadTriggerHandler rt zeebeJobType zeebeBrokerURL zeebeTasksToFail nomadClient
        nomadJobFactory zeebeClient zeebeJob heap).calls = [] ∧
    (nomadTriggerHandler rt zeebeJobType zeebeBrokerURL zeebeTasksToFail nomadClient
        nomadJobFactory zeebeClient zeebeJob heap).outcome
      = Outcome.panic "assignment to entry in nil map" := by
  constructor <;> simp [nomadTriggerHandler, hdec]

/-- The other path into the fallback: when the payload decodes to `m` and only the
re-encoding fails, the fallback does complete the job, for its key and with `m` in
which "error" is true. -/
theorem marshal_failure_completes (rt : Runtime) (zeebeJobType zeebeBrokerURL : String)
    (zeebeTasksToFail : List String) (nomadClient : nomadAPI.Client)
    (nomadJobFactory : NomadJobFactory) (zeebeClient : worker.JobClient)
    (zeebeJob : entities.Job) (heap : Heap) (m : GoMap json.Value) (err : String)
    (hdec : rt.GetPayloadAsMap zeebeJob = .ok (some m))
    (hmar : rt.Marshal (GoMap.set m "error" (json.Value.bool false)) = .error err)
    (hreq : zeebeClient.PayloadFromMap (GoMap.set m "error" (json.Value.bool true)) = none) :
    completes (nomadTriggerHandler rt zeebeJobType zeebeBrokerURL zeebeTasksToFail
        nomadClient nomadJobFactory zeebeClient zeebeJob heap).calls
      = [(zeebeJob.Key, GoMap.set m "error" (json.Value.bool true))] := by
  unfold nomadTriggerHandler failZeebeJob
  simp only [hdec, hmar, hreq]
  cases zeebeClient.Send zeebeJob.Key (GoMap.set m "error" (json.Value.bool true)) <;> rfl

/-- The spec a factory returns has the task groups of the template itself, so its first
task's `Env` is the template's map. -/
theorem factory_spec_env (template : nomadAPI.Job) :
    firstEnv (newNomadJobFactory template ()) = firstEnv template :=
  rfl

/-! ## The claims -/

/-- C1 (idempotent dispatch): for a job whose payload decodes into a mapping (and
re-encodes), with a template that has a first task with an environment map, one
invocation of the handler makes no Register call and no complete-job call when the
lookup of the TransactionID returns without error (found), and exactly one Register call,
whose spec has the TransactionID as ID, when the lookup reports not found (an error
whose text carries the 404 status). -/
theorem idempotent_dispatch (rt : Runtime) (zeebeJobType zeebeBrokerURL : String)
    (zeebeTasksToFail : List String) (nomadClient : nomadAPI.Client)
    (nomadJobFactory : NomadJobFactory) (zeebeClient : worker.JobClient)
    (zeebeJob : entities.Job) (heap : Heap) (m : GoMap json.Value) (s : String) (a : Nat)
    (hdec : rt.GetPayloadAsMap zeebeJob = .ok (some m))
    (hmar : rt.Marshal (GoMap.set m "error" (json.Value.bool false)) = .ok s)
    (henv : firstEnv (nomadJobFactory ()) = some a) :
    ((nomadClient.Info (transactionID zeebeJob)).2 = none →
      submits (nomadTriggerHandler rt zeebeJobType zeebeBrokerURL zeebeTasksToFail
          nomadClient nomadJobFactory zeebeClient zeebeJob heap).calls = [] ∧
      completes (nomadTriggerHandler rt zeebeJobType zeebeBrokerURL zeebeTasksToFail
          nomadClient nomadJobFactory zeebeClient zeebeJob heap).calls = []) ∧
    (∀ e, (nomadClient.Info (transactionID zeebeJob)).2 = some e →
      strings.Contains e "404" = true →
      ∃ spec, submits (nomadTriggerHandler rt zeebeJobType zeebeBrokerURL zeebeTasksToFail
          nomadClient nomadJobFactory zeebeClient zeebeJob heap).calls = [spec] ∧
        spec.ID = some (transactionID zeebeJob)) := by
  rw [handler_eq_dispatch rt zeebeJobType zeebeBrokerURL zeebeTasksToFail nomadClient
    nomadJobFactory zeebeClient zeebeJob heap m s a hdec hmar henv]
  constructor
  · intro h
    rw [dispatch_found _ _ _ _ h]
    exact ⟨rfl, rfl⟩
  · intro e h hc
    rw [dispatch_notFound _ _ _ _ e h hc]
    exact ⟨_, rfl, rfl⟩

/-- Witness of C1 on the scenario of the spec: when the lookup reports not found the one
Register call carries the ID `p1_7_step1_42`; when it reports found there is no Register
and no complete-job call. -/
theorem idempotent_dispatch_witness :
    encodingJSON.GetPayloadAsMap scenarioJob
        = .ok (some [("x", json.Value.number 4607182418800017408)]) ∧
    firstEnv (newNomadJobFactory scenarioTemplate ()) = some 0 ∧
    (submits (nomadTriggerHandler encodingJSON "action" "10.0.2.2:26500" []
        notFoundClient (newNomadJobFactory scenarioTemplate) scenarioZeebeClient
        scenarioJob scenarioHeap).calls).map (fun spec => spec.ID)
      = [some "p1_7_step1_42"] ∧
    submits (nomadTriggerHandler encodingJSON "action" "10.0.2.2:26500" []
        foundClient (newNomadJobFactory scenarioTemplate) scenarioZeebeClient
        scenarioJob scenarioHeap).calls = [] ∧
    completes (nomadTriggerHandler encodingJSON "action" "10.0.2.2:26500" []
        foundClient (newNomadJobFactory scenarioTemplate) scenarioZeebeClient
        scenarioJob scenarioHeap).calls = [] := by
  refine ⟨rfl, rfl, ?_,
    (idempotent_dispatch encodingJSON "action" "10.0.2.2:26500" [] foundClient
      (newNomadJobFactory scenarioTemplate) scenarioZeebeClient scenarioJob scenarioHeap
      [("x", json.Value.number 4607182418800017408)] _ 0 rfl rfl rfl).1 rfl⟩
  obtain ⟨spec, h₁, h₂⟩ :=
    (idempotent_dispatch encodingJSON "action" "10.0.2.2:26500" [] notFoundClient
      (newNomadJobFactory scenarioTemplate) scenarioZeebeClient scenarioJob scenarioHeap
      [("x", json.Value.number 4607182418800017408)] _ 0 rfl rfl rfl).2
      "Unexpected response code: 404 (job not found)" rfl (by decide)
  have ht : transactionID scenarioJob = "p1_7_step1_42" := by decide
  rw [h₁, List.map_singleton, h₂, ht]

/-- C2 (at most one submit per TransactionID): with the scheduler modelled as a set of
registered job IDs (a lookup finds exactly the IDs of the set, an accepted submit adds
the ID of its spec), for every finite sequence of deliveries handled one after the
other, from any scheduler state and any heap, and for every tuple (processId,
workflowInstanceKey, elementId, key), at most one Register call of the whole trace
carries a spec whose ID is the TransactionID of that tuple. -/
theorem at_most_one_submit (rt : Runtime) (zeebeJobType zeebeBrokerURL : String)
    (zeebeTasksToFail : List String) (nomadJobFactory : NomadJobFactory)
    (ds : List Delivery) (registered : List String) (heap : Heap)
    (processId elementId : String) (workflowInstanceKey key : Int)
    (jobType payload : String) :
    (submittedIDs (deliver rt zeebeJobType zeebeBrokerURL zeebeTasksToFail
        nomadJobFactory ds registered heap)).count
      (transactionID ⟨key, jobType, ⟨processId, workflowInstanceKey, elementId⟩, payload⟩)
      ≤ 1 :=
  (deliver_count rt zeebeJobType zeebeBrokerURL zeebeTasksToFail nomadJobFactory ds
    registered heap _).1

/-- C3 (TransactionID format): the TransactionID of every workflow job is processId,
"_", the decimal form of workflowInstanceKey, "_", elementId, "_", the decimal form of
key, in that order; for p1, 7, step1, 42 it is "p1_7_step1_42". -/
theorem transactionID_format :
    (∀ zeebeJob : entities.Job,
      transactionID zeebeJob
        = zeebeJob.JobHeaders.BpmnProcessId ++ "_"
            ++ Int.repr zeebeJob.JobHeaders.WorkflowInstanceKey ++ "_"
            ++ zeebeJob.JobHeaders.ElementId ++ "_" ++ Int.repr zeebeJob.Key) ∧
    (∀ jobType payload,
      transactionID ⟨42, jobType, ⟨"p1", 7, "step1"⟩, payload⟩ = "p1_7_step1_42") := by
  refine ⟨transactionID_eq, ?_⟩
  intro jobType payload
  rw [transactionID_eq]
  show "p1" ++ "_" ++ Int.repr 7 ++ "_" ++ "step1" ++ "_" ++ Int.repr 42 = "p1_7_step1_42"
  decide

/-- C4 (no collisions): two workflow jobs of an engine whose job keys are globally
unique (jobs with the same key have the same headers) that differ in elementId or in
workflowInstanceKey have different TransactionIDs. -/
theorem transactionID_distinct (j₁ j₂ : entities.Job)
    (hkey : j₁.Key = j₂.Key → j₁.JobHeaders = j₂.JobHeaders)
    (hne : j₁.JobHeaders.ElementId ≠ j₂.JobHeaders.ElementId ∨
      j₁.JobHeaders.WorkflowInstanceKey ≠ j₂.JobHeaders.WorkflowInstanceKey) :
    transactionID j₁ ≠ transactionID j₂ := by
  intro h
  have hh := hkey (transactionID_key j₁ j₂ h)
  rcases hne with hne | hne
  · exact hne (congrArg entities.JobHeaders.ElementId hh)
  · exact hne (congrArg entities.JobHeaders.WorkflowInstanceKey hh)

/-- Witness of C4: the scenario job (key 42, step `step1`) and the job of step `step2`
of the same process and instance, which has its own key 43. -/
theorem transactionID_distinct_witness :
    (scenarioJob.Key = 43 → scenarioJob.JobHeaders = ⟨"p1", 7, "step2"⟩) ∧
    scenarioJob.JobHeaders.ElementId ≠ "step2" ∧
    transactionID scenarioJob
      ≠ transactionID ⟨43, "action", ⟨"p1", 7, "step2"⟩, "\x7b\x7d"⟩ :=
  ⟨fun h => absurd h (by decide), by decide,
    transactionID_distinct scenarioJob ⟨43, "action", ⟨"p1", 7, "step2"⟩, "\x7b\x7d"⟩
      (fun h => absurd h (by decide)) (Or.inl (by decide))⟩

/-- C5, evaluated where the code departs from it: the lookup of `p1_404_step1_42` fails
on the network (connection reset, not a 404 answer of the scheduler); the error text
quotes the request URL and so contains "404", the handler takes the failure for "not
found", submits the spec and returns instead of ending fatally. -/
theorem network_failure_taken_for_not_found :
    (connectionResetClient.Info (transactionID instance404Job)).2
      = some ("Get http://10.0.2.2:4646/v1/job/p1_404_step1_42"
          ++ ": read tcp 10.0.2.15:51234->10.0.2.2:4646: read: connection reset by peer") ∧
    submittedIDs (nomadTriggerHandler encodingJSON "action" "10.0.2.2:26500" []
        connectionResetClient (newNomadJobFactory scenarioTemplate) scenarioZeebeClient
        instance404Job scenarioHeap).calls = ["p1_404_step1_42"] ∧
    (nomadTriggerHandler encodingJSON "action" "10.0.2.2:26500" []
        connectionResetClient (newNomadJobFactory scenarioTemplate) scenarioZeebeClient
        instance404Job scenarioHeap).outcome = Outcome.returned := by
  decide

/-- C6, evaluated where the code departs from it: for the job whose payload is not JSON
the handler makes no lookup and no submit, as the claim says, but no complete-job call
either, because the fail-job fallback decodes the same payload again, fails again and
ends fatally.  For the payload `null`, which decodes without error to a nil map, the
handler panics on the write of "error" and does not reach the fallback. -/
theorem undecodable_payload_not_completed :
    json.Unmarshal undecodableJob.Payload = some (.error json.rejected) ∧
    (nomadTriggerHandler encodingJSON "action" "10.0.2.2:26500" []
        notFoundClient (newNomadJobFactory scenarioTemplate) scenarioZeebeClient
        undecodableJob scenarioHeap).calls = [] ∧
    (nomadTriggerHandler encodingJSON "action" "10.0.2.2:26500" []
        notFoundClient (newNomadJobFactory scenarioTemplate) scenarioZeebeClient
        undecodableJob scenarioHeap).outcome
      = Outcome.fatal ("error getting payload: " ++ json.rejected) ∧
    (failZeebeJob encodingJSON scenarioZeebeClient undecodableJob
        (some json.rejected)).1 = [] ∧
    json.Unmarshal nullPayloadJob.Payload = some (.ok none) ∧
    (nomadTriggerHandler encodingJSON "action" "10.0.2.2:26500" []
        notFoundClient (newNomadJobFactory scenarioTemplate) scenarioZeebeClient
        nullPayloadJob scenarioHeap).calls = [] ∧
    (nomadTriggerHandler encodingJSON "action" "10.0.2.2:26500" []
        notFoundClient (newNomadJobFactory scenarioTemplate) scenarioZeebeClient
        nullPayloadJob scenarioHeap).outcome
      = Outcome.panic "assignment to entry in nil map" :=
  ⟨rfl, rfl, by decide, rfl, rfl, rfl, by decide⟩

/-- C7, evaluated where the code departs from it: the spec returned by the factory
points to the environment map of the stored template (address 0), so after one
invocation of the handler on the scenario job the template's map, empty before, holds
the job key and the flag of that dispatch, and so does the map of every other spec
obtained from a factory of the same template; ID and Name of the template are kept. -/
theorem factory_shares_template_env :
    firstEnv scenarioTemplate = some 0 ∧
    firstEnv (newNomadJobFactory scenarioTemplate ()) = some 0 ∧
    scenarioHeap 0 = [] ∧
    GoMap.get ((nomadTriggerHandler encodingJSON "action" "10.0.2.2:26500" ["step1"]
        notFoundClient (newNomadJobFactory scenarioTemplate) scenarioZeebeClient
        scenarioJob scenarioHeap).heap 0) "ZEEBE_JOB_KEY" = some "42" ∧
    GoMap.get ((nomadTriggerHandler encodingJSON "action" "10.0.2.2:26500" ["step1"]
        notFoundClient (newNomadJobFactory scenarioTemplate) scenarioZeebeClient
        scenarioJob scenarioHeap).heap 0) "ZEEBE_FAIL_JOB_FLAG" = some "true" ∧
    (newNomadJobFactory scenarioTemplate ()).ID = some "long-running-process" := by
  decide

/-- C8 (fail-set override): for a job whose payload decodes into a mapping (and
re-encodes), with a template that has a first task with an environment map, the spec the
handler builds and hands to the lookup-and-submit phase has `ZEEBE_FAIL_JOB_FLAG` equal
to "true" when the job's elementId is in the Task-Fail Set and "false" otherwise. -/
theorem fail_flag_override (rt : Runtime) (zeebeJobType zeebeBrokerURL : String)
    (zeebeTasksToFail : List String) (nomadJobFactory : NomadJobFactory)
    (zeebeJob : entities.Job) (heap : Heap) (m : GoMap json.Value) (s : String) (a : Nat)
    (hdec : rt.GetPayloadAsMap zeebeJob = .ok (some m))
    (hmar : rt.Marshal (GoMap.set m "error" (json.Value.bool false)) = .ok s)
    (henv : firstEnv (nomadJobFactory ()) = some a) :
    ∃ spec heap',
      (∀ nomadClient zeebeClient,
        nomadTriggerHandler rt zeebeJobType zeebeBrokerURL zeebeTasksToFail
            nomadClient nomadJobFactory zeebeClient zeebeJob heap
          = dispatch nomadClient (transactionID zeebeJob) spec heap') ∧
      firstEnv spec = some a ∧
      GoMap.get (heap' a) "ZEEBE_FAIL_JOB_FLAG"
        = some (if zeebeJob.JobHeaders.ElementId ∈ zeebeTasksToFail then "true"
            else "false") := by
  obtain ⟨spec, heap', h, -, -, hfe, rfl⟩ := handler_builds rt zeebeJobType zeebeBrokerURL
    zeebeTasksToFail nomadJobFactory zeebeJob heap m s a hdec hmar henv
  exact ⟨spec, _, h, hfe, envWritten_failFlag _ _ _ _ _ _⟩

/-- Witness of C8 on the scenario of the spec (elementId "step1"): the flag is "true"
for the Task-Fail Set {"step1"} and "false" for the empty set. -/
theorem fail_flag_override_witness :
    encodingJSON.GetPayloadAsMap scenarioJob
        = .ok (some [("x", json.Value.number 4607182418800017408)]) ∧
    firstEnv (newNomadJobFactory scenarioTemplate ()) = some 0 ∧
    GoMap.get ((nomadTriggerHandler encodingJSON "action" "10.0.2.2:26500" ["step1"]
        notFoundClient (newNomadJobFactory scenarioTemplate) scenarioZeebeClient
        scenarioJob scenarioHeap).heap 0) "ZEEBE_FAIL_JOB_FLAG" = some "true" ∧
    GoMap.get ((nomadTriggerHandler encodingJSON "action" "10.0.2.2:26500" []
        notFoundClient (newNomadJobFactory scenarioTemplate) scenarioZeebeClient
        scenarioJob scenarioHeap).heap 0) "ZEEBE_FAIL_JOB_FLAG" = some "false" := by
  refine ⟨rfl, rfl, ?_, ?_⟩
  · obtain ⟨spec, heap', h, -, hflag⟩ :=
      fail_flag_override encodingJSON "action" "10.0.2.2:26500" ["step1"]
        (newNomadJobFactory scenarioTemplate) scenarioJob scenarioHeap
        [("x", json.Value.number 4607182418800017408)] _ 0 rfl rfl rfl
    rw [h, dispatch_heap, hflag]
    decide
  · obtain ⟨spec, heap', h, -, hflag⟩ :=
      fail_flag_override encodingJSON "action" "10.0.2.2:26500" []
        (newNomadJobFactory scenarioTemplate) scenarioJob scenarioHeap
        [("x", json.Value.number 4607182418800017408)] _ 0 rfl rfl rfl
    rw [h, dispatch_heap, hflag]
    decide

/-- C9, as stated, fails: the payload `{"x":9007199254740993}` is a valid JSON object,
its number decodes to the float64 `2^53` (the same float as 9007199254740992), and the
`ZEEBE_PAYLOAD` the handler builds is `{"error":false,"x":9007199254740992}`: the key
"x" is present, but not with its original value. -/
theorem payload_integer_rounded :
    json.Unmarshal bigIntegerJob.Payload
        = some (.ok (some [("x", json.Value.number 4845873199050653696)])) ∧
    float64.ofInteger false 9007199254740992 = some 4845873199050653696 ∧
    GoMap.get ((nomadTriggerHandler encodingJSON "action" "10.0.2.2:26500" []
        notFoundClient (newNomadJobFactory scenarioTemplate) scenarioZeebeClient
        bigIntegerJob scenarioHeap).heap 0) "ZEEBE_PAYLOAD"
      = some "\x7b\"error\":false,\"x\":9007199254740992\x7d" :=
  ⟨rfl, by decide, by decide⟩

/-- C9, amended (payload round-trip).  Whatever payload decodes into a mapping `m` and
re-encodes: `ZEEBE_PAYLOAD` is the JSON encoding of a mapping in which "error" is false
and every other key has exactly the binding it has in `m`, its value as Go decoded it.
On the modelled fragment of encoding/json, for a payload that is the compact JSON text of
a flat object with distinct keys whose values are `null`, booleans, strings without
escapes and integers of magnitude below `2^53`: `ZEEBE_PAYLOAD` is the JSON text (keys
sorted) of the object in which "error" is false and every other key of the payload is
present with its original value, and no other key. -/
theorem payload_round_trip :
    (∀ (rt : Runtime) (zeebeJobType zeebeBrokerURL : String)
      (zeebeTasksToFail : List String) (nomadJobFactory : NomadJobFactory)
      (zeebeJob : entities.Job) (heap : Heap) (m : GoMap json.Value) (s : String) (a : Nat),
      rt.GetPayloadAsMap zeebeJob = .ok (some m) →
      rt.Marshal (GoMap.set m "error" (json.Value.bool false)) = .ok s →
      firstEnv (nomadJobFactory ()) = some a →
      ∃ spec heap',
        (∀ nomadClient zeebeClient,
          nomadTriggerHandler rt zeebeJobType zeebeBrokerURL zeebeTasksToFail
              nomadClient nomadJobFactory zeebeClient zeebeJob heap
            = dispatch nomadClient (transactionID zeebeJob) spec heap') ∧
        firstEnv spec = some a ∧
        ∃ m' : GoMap json.Value,
          rt.Marshal m' = .ok s ∧
          GoMap.get (heap' a) "ZEEBE_PAYLOAD" = some s ∧
          GoMap.get m' "error" = some (json.Value.bool false) ∧
          ∀ k, k ≠ "error" → GoMap.get m' k = GoMap.get m k) ∧
    (∀ (zeebeJobType zeebeBrokerURL : String) (zeebeTasksToFail : List String)
      (nomadJobFactory : NomadJobFactory) (zeebeJob : entities.Job) (heap : Heap) (a : Nat)
      (o : List (String × json.Literal)),
      json.covered o →
      zeebeJob.Payload = json.objectText o →
      firstEnv (nomadJobFactory ()) = some a →
      ∃ spec heap',
        (∀ nomadClient zeebeClient,
          nomadTriggerHandler encodingJSON zeebeJobType zeebeBrokerURL zeebeTasksToFail
              nomadClient nomadJobFactory zeebeClient zeebeJob heap
            = dispatch nomadClient (transactionID zeebeJob) spec heap') ∧
        firstEnv spec = some a ∧
        GoMap.get (heap' a) "ZEEBE_PAYLOAD"
          = some (json.objectText
              (json.sortEntries (GoMap.set o "error" (json.Literal.bool false)))) ∧
        ∀ k, GoMap.get (json.sortEntries (GoMap.set o "error" (json.Literal.bool false))) k
          = if k = "error" then some (json.Literal.bool false) else GoMap.get o k) := by
  constructor
  · intro rt zeebeJobType zeebeBrokerURL zeebeTasksToFail nomadJobFactory zeebeJob heap m s a
      hdec hmar henv
    exact payload_reencoded rt zeebeJobType zeebeBrokerURL zeebeTasksToFail nomadJobFactory
      zeebeJob heap m s a hdec hmar henv
  · intro zeebeJobType zeebeBrokerURL zeebeTasksToFail nomadJobFactory zeebeJob heap a o
      hcov hpayload henv
    obtain ⟨spec, heap', h, hfe, hp⟩ := payload_text_reencoded zeebeJobType zeebeBrokerURL
      zeebeTasksToFail nomadJobFactory zeebeJob heap a o hcov hpayload henv
    exact ⟨spec, heap', h, hfe, hp, get_sorted_error_false o hcov.2⟩

/-- Witness of the amended C9 on the scenario of the spec: the payload `{"x":1}` is the
text of the object with "x" bound to 1, and `ZEEBE_PAYLOAD` is `{"error":false,"x":1}`. -/
theorem payload_round_trip_witness :
    json.covered [("x", json.Literal.integer 1)] ∧
    scenarioJob.Payload = json.objectText [("x", json.Literal.integer 1)] ∧
    firstEnv (newNomadJobFactory scenarioTemplate ()) = some 0 ∧
    GoMap.get ((nomadTriggerHandler encodingJSON "action" "10.0.2.2:26500" []
        notFoundClient (newNomadJobFactory scenarioTemplate) scenarioZeebeClient
        scenarioJob scenarioHeap).heap 0) "ZEEBE_PAYLOAD"
      = some "\x7b\"error\":false,\"x\":1\x7d" := by
  refine ⟨by decide, by decide, rfl, ?_⟩
  obtain ⟨spec, heap', h, -, hp, -⟩ :=
    payload_round_trip.2 "action" "10.0.2.2:26500" [] (newNomadJobFactory scenarioTemplate)
      scenarioJob scenarioHeap 0 [("x", json.Literal.integer 1)] (by decide) (by decide) rfl
  rw [h, dispatch_heap, hp]
  decide

/-- C10 (spec fields): for a job whose payload decodes into a mapping (and re-encodes)
and whose key is an int64, with a template that has a first task with an environment
map, the spec the handler builds has ID and Name equal to the TransactionID,
`ZEEBE_JOB_KEY` equal to the decimal string of the job key (which is also the last
segment of the TransactionID), `ZEEBE_BROKER_URL` equal to the broker address the
handler was constructed with, and `DURATION` equal to "2m". -/
theorem spec_fields (rt : Runtime) (zeebeJobType zeebeBrokerURL : String)
    (zeebeTasksToFail : List String) (nomadJobFactory : NomadJobFactory)
    (zeebeJob : entities.Job) (heap : Heap) (m : GoMap json.Value) (s : String) (a : Nat)
    (hdec : rt.GetPayloadAsMap zeebeJob = .ok (some m))
    (hmar : rt.Marshal (GoMap.set m "error" (json.Value.bool false)) = .ok s)
    (henv : firstEnv (nomadJobFactory ()) = some a)
    (hlo : -2 ^ 63 ≤ zeebeJob.Key) (hhi : zeebeJob.Key < 2 ^ 63) :
    ∃ spec heap',
      (∀ nomadClient zeebeClient,
        nomadTriggerHandler rt zeebeJobType zeebeBrokerURL zeebeTasksToFail
            nomadClient nomadJobFactory zeebeClient zeebeJob heap
          = dispatch nomadClient (transactionID zeebeJob) spec heap') ∧
      spec.ID = some (transactionID zeebeJob) ∧ spec.Name = some (transactionID zeebeJob) ∧
      firstEnv spec = some a ∧
      GoMap.get (heap' a) "ZEEBE_JOB_KEY" = some (Int.repr zeebeJob.Key) ∧
      (∃ front, transactionID zeebeJob = front ++ "_" ++ Int.repr zeebeJob.Key) ∧
      GoMap.get (heap' a) "ZEEBE_BROKER_URL" = some zeebeBrokerURL ∧
      GoMap.get (heap' a) "DURATION" = some "2m" := by
  obtain ⟨spec, heap', h, hid, hname, hfe, rfl⟩ := handler_builds rt zeebeJobType
    zeebeBrokerURL zeebeTasksToFail nomadJobFactory zeebeJob heap m s a hdec hmar henv
  refine ⟨spec, _, h, hid, hname, hfe, ?_, ⟨_, transactionID_eq zeebeJob⟩,
    envWritten_brokerURL _ _ _ _ _ _, envWritten_duration _ _ _ _ _ _⟩
  rw [envWritten_jobKey, int_of_int64 _ hlo hhi]
  rfl

/-- Witness of C10 on the scenario of the spec: for key 42 the submitted spec has ID
and Name `p1_7_step1_42` and `ZEEBE_JOB_KEY` is "42". -/
theorem spec_fields_witness :
    encodingJSON.GetPayloadAsMap scenarioJob
        = .ok (some [("x", json.Value.number 4607182418800017408)]) ∧
    firstEnv (newNomadJobFactory scenarioTemplate ()) = some 0 ∧
    (-2 ^ 63 ≤ scenarioJob.Key ∧ scenarioJob.Key < 2 ^ 63) ∧
    GoMap.get ((nomadTriggerHandler encodingJSON "action" "10.0.2.2:26500" []
        notFoundClient (newNomadJobFactory scenarioTemplate) scenarioZeebeClient
        scenarioJob scenarioHeap).heap 0) "ZEEBE_JOB_KEY" = some "42" ∧
    GoMap.get ((nomadTriggerHandler encodingJSON "action" "10.0.2.2:26500" []
        notFoundClient (newNomadJobFactory scenarioTemplate) scenarioZeebeClient
        scenarioJob scenarioHeap).heap 0) "ZEEBE_BROKER_URL" = some "10.0.2.2:26500" := by
  refine ⟨rfl, rfl, ⟨by decide, by decide⟩, ?_⟩
  obtain ⟨spec, heap', h, -, -, -, hkey, -, hurl, -⟩ :=
    spec_fields encodingJSON "action" "10.0.2.2:26500" []
      (newNomadJobFactory scenarioTemplate) scenarioJob scenarioHeap
      [("x", json.Value.number 4607182418800017408)] _ 0 rfl rfl rfl
      (by decide) (by decide)
  rw [h, dispatch_heap, hkey, hurl]
  exact ⟨by decide, rfl⟩

end ZeebeNomad
